import Mathlib

/-!
Verification development for the ScenarioIndex repository's
Scenario Archive Metadata Extraction Engine (`src/file_scanner.py`, with the
zip entry-name resolver from `src/utils_and_ui.py`).

The Python code is shallowly embedded:
* a byte stream is a `List Nat` of byte values consumed from the front;
* `CWFile`'s reading methods become functions in a state-and-error monad
  `StreamM` over such streams; Python exceptions become `Except` errors;
* machine integers are `Int` with explicit two's-complement reinterpretation
  (`struct.unpack` of little-endian signed fields);
* Python library codecs (`bytes.decode`) are modelled structurally: the
  UTF-8 decoder is the real algorithm; the CP932 decoder follows the real
  lead/trail byte structure of the codec, maps the hiragana and katakana
  rows of the real table exactly, and maps the remaining double-byte pairs
  injectively into code points outside every script range any claim
  mentions (no claim depends on which particular kanji a pair denotes);
* functions whose internals no claim depends on (the XML field parser
  `parse_xml_data`, the `chardet.detect` heuristic, the codec registry seen
  by dynamically chosen encoding names) are passed as explicitly quantified
  parameters, so every theorem holds for all of their behaviours.
-/

/-- Python exceptions that the scanner code can raise or catch.  A short
read inside a fixed-width field (`assert len(raw_data) == 4` in
`CWFile.dword`, or `struct.error` from `struct.unpack` on a short buffer)
is the condition the specification names `TruncatedRecord`. -/
inductive PyErr where
  | truncatedRecord
  | unicodeDecodeError
  | unicodeEncodeError
  | lookupError
  | keyError
  | runtimeError
  | badZipFile
deriving Repr, DecidableEq

deriving instance DecidableEq for Except

/-- State-and-error monad for `CWFile`: a computation consumes a byte
stream from the front and either returns a value with the remaining stream
or raises a Python exception. -/
def StreamM (α : Type) : Type := List Nat → Except PyErr (α × List Nat)

instance : Monad StreamM where
  pure a := fun s => .ok (a, s)
  bind p f := fun s =>
    match p s with
    | .ok (a, rest) => f a rest
    | .error e => .error e

theorem StreamM.pure_def {α : Type} (a : α) (s : List Nat) :
    (pure a : StreamM α) s = .ok (a, s) := rfl

theorem StreamM.bind_def {α β : Type} (p : StreamM α) (f : α → StreamM β)
    (s : List Nat) :
    (p >>= f) s =
      match p s with
      | .ok (a, rest) => f a rest
      | .error e => .error e := rfl

/-- Model of `BufferedReader.read(n)` as used through `CWFile.read`: a
non-negative count returns up to `n` bytes (fewer when the stream is
exhausted, with no error), and a negative count reads everything to the
end of the stream. -/
def cwread (n : Int) : StreamM (List Nat) := fun s =>
  if n < 0 then .ok (s, [])
  else .ok (s.take n.toNat, s.drop n.toNat)

/-- Read exactly `n` bytes or fail: the shape shared by `CWFile.dword`
(which asserts the read length) and `CWFile.byte`/`word` (whose
`struct.unpack` raises on a short buffer). -/
def fixedRead (n : Nat) : StreamM (List Nat) := fun s =>
  let raw := s.take n
  if raw.length = n then .ok (raw, s.drop n) else .error .truncatedRecord

/-- Little-endian unsigned value of a byte list. -/
def leVal : List Nat → Nat
  | [] => 0
  | b :: r => b + 256 * leVal r

/-- Reinterpret an unsigned `bits`-bit value as two's-complement signed. -/
def toSigned (bits : Nat) (u : Nat) : Int :=
  if (u : Int) < 2 ^ (bits - 1) then (u : Int) else (u : Int) - 2 ^ bits

/-- `CWFile.byte`: one byte, signed. -/
def byteM : StreamM Int := do
  let raw ← fixedRead 1
  pure (toSigned 8 (leVal raw))

/-- `CWFile.ubyte`: one byte, unsigned. -/
def ubyteM : StreamM Nat := do
  let raw ← fixedRead 1
  pure (leVal raw)

/-- `CWFile.word`: two bytes, little-endian signed. -/
def wordM : StreamM Int := do
  let raw ← fixedRead 2
  pure (toSigned 16 (leVal raw))

/-- `CWFile.dword`: four bytes, little-endian signed; asserts that exactly
four bytes were read. -/
def dwordM : StreamM Int := do
  let raw ← fixedRead 4
  pure (toSigned 32 (leVal raw))

/-- `CWFile.boolean`: true iff the signed byte is non-zero. -/
def booleanM : StreamM Bool := do
  let b ← byteM
  pure (b ≠ 0)

/-- Lead byte of a CP932 double-byte sequence. -/
def cp932IsLead (b : Nat) : Bool :=
  (0x81 ≤ b && b ≤ 0x9F) || (0xE0 ≤ b && b ≤ 0xFC)

/-- Trail byte of a CP932 double-byte sequence. -/
def cp932IsTrail (b : Nat) : Bool :=
  0x40 ≤ b && b ≤ 0xFC && b ≠ 0x7F

/-- Code point for a CP932 double-byte pair.  The hiragana row (lead 0x82)
and the katakana row (lead 0x83) follow the real table; every other valid
pair is mapped injectively to a code point at or above U+E000, outside the
Hiragana, Katakana and CJK ranges the claims mention. -/
def cp932PairChar (hi lo : Nat) : Char :=
  if hi = 0x82 && 0x9F ≤ lo && lo ≤ 0xF1 then
    Char.ofNat (0x3041 + (lo - 0x9F))
  else if hi = 0x83 && 0x40 ≤ lo && lo ≤ 0x96 && lo ≠ 0x7F then
    Char.ofNat (0x30A1 + (if lo ≤ 0x7E then lo - 0x40 else lo - 0x41))
  else
    Char.ofNat (0xE000 + (hi - 0x81) * 0xBD + (lo - 0x40))

/-- Strict CP932 decoding (`bytes.decode("cp932")`): ASCII range and
single-byte halfwidth katakana pass through; a valid lead byte must be
followed by a valid trail byte; anything else is a decode failure
(`none` here; the codec wrapper turns it into `UnicodeDecodeError`). -/
def cp932Strict : List Nat → Option (List Char)
  | [] => some []
  | b :: rest =>
    if b < 0x80 then
      (cp932Strict rest).map (Char.ofNat b :: ·)
    else if 0xA1 ≤ b && b ≤ 0xDF then
      (cp932Strict rest).map (Char.ofNat (0xFF61 + (b - 0xA1)) :: ·)
    else if cp932IsLead b then
      match rest with
      | [] => none
      | t :: rest2 =>
        if cp932IsTrail t then
          (cp932Strict rest2).map (cp932PairChar b t :: ·)
        else none
    else none

/-- CP932 decoding with a substitution for invalid sequences: `sub = []`
models `errors="ignore"`, `sub = [replacement char]` models
`errors="replace"`.  A lead byte with an invalid trail substitutes for the
lead byte only and decoding resumes at the following byte. -/
def cp932SubGo (sub : List Char) : Nat → List Nat → List Char
  | _, [] => []
  | 0, _ :: _ => []
  | Nat.succ fuel, b :: rest =>
    if b < 0x80 then
      Char.ofNat b :: cp932SubGo sub fuel rest
    else if 0xA1 ≤ b && b ≤ 0xDF then
      Char.ofNat (0xFF61 + (b - 0xA1)) :: cp932SubGo sub fuel rest
    else if cp932IsLead b then
      match rest with
      | [] => sub
      | t :: rest2 =>
        if cp932IsTrail t then
          cp932PairChar b t :: cp932SubGo sub fuel rest2
        else sub ++ cp932SubGo sub fuel (t :: rest2)
    else sub ++ cp932SubGo sub fuel rest

def cp932Sub (sub : List Char) (bs : List Nat) : List Char :=
  cp932SubGo sub bs.length bs

/-- The Unicode replacement character used by `errors="replace"`. -/
def replChar : Char := Char.ofNat 0xFFFD

/-- Python `str.strip("\x00")`: removes NUL characters from BOTH ends of
the string (leading and trailing). -/
def stripNulL (cs : List Char) : List Char :=
  ((cs.dropWhile (· = '\x00')).reverse.dropWhile (· = '\x00')).reverse

/-- `CWFile.rawstring`: a 4-byte signed length `n`; if `n` is non-zero
(truthiness of the Python int), read `n` bytes, decode them as CP932 with
replacement, and strip NUL characters from both ends; a zero length yields
the empty string with no further read. -/
def rawstringM : StreamM String := do
  let n ← dwordM
  if n ≠ 0 then
    let bs ← cwread n
    pure (String.mk (stripNulL (cp932Sub [replChar] bs)))
  else
    pure ""

/-- The `encodewrap` newline-escaping transform: doubles backslashes,
escapes `\n` to the two-character sequence, drops carriage returns. -/
def encodewrapL : List Char → List Char
  | [] => []
  | c :: r =>
    if c = '\\' then '\\' :: '\\' :: encodewrapL r
    else if c = '\n' then '\\' :: 'n' :: encodewrapL r
    else if c = '\r' then encodewrapL r
    else c :: encodewrapL r

def encodewrap (s : String) : String := String.mk (encodewrapL s.data)

/-- `CWFile.string(multiline)`: `rawstring`, then the `encodewrap`
transform when `multiline` is true (both `CWFile` constructions in the
scanner leave `decodewrap` at its default `False`). -/
def stringM (multiline : Bool) : StreamM String := do
  let s ← rawstringM
  pure (if multiline then encodewrap s else s)

/-- `CWFile.image`: a 4-byte length; `None` when zero, else the raw byte
slice. -/
def imageM : StreamM (Option (List Nat)) := do
  let n ← dwordM
  if n ≠ 0 then
    let bs ← cwread n
    pure (some bs)
  else
    pure none

/-- Run a reader `n` times, collecting the results in order: the list
comprehensions `[Step(...) for _ in range(steps_num)]`.  Python's `range`
of a negative count is empty, matching `Int.toNat` at the call sites. -/
def mreplicate {α : Type} (n : Nat) (p : StreamM α) : StreamM (List α) :=
  match n with
  | 0 => pure []
  | Nat.succ k => do
    let x ← p
    let xs ← mreplicate k p
    pure (x :: xs)

/-- Version and adjusted area id derived from the raw area id in
`SummaryFileReader.read_summary_data` (the first-match `if`/`elif`
chain). -/
def versionAdjust (areaId : Int) : Nat × Int :=
  if areaId ≤ 19999 then (0, areaId)
  else if areaId ≤ 39999 then (2, areaId - 20000)
  else if areaId ≤ 49999 then (4, areaId - 40000)
  else (7, areaId - 70000)

/-- The conditional level read at the end of `read_summary_data`:
`level_min`/`level_max` are read from the stream only when the version is
positive, and are reported as 0 otherwise. -/
def readLevels (version : Nat) : StreamM (Int × Int) :=
  if 0 < version then do
    let lmin ← dwordM
    let lmax ← dwordM
    pure (lmin, lmax)
  else
    pure (0, 0)

/-- A `Step` record: name, a 4-byte signed default, 10 named variable
slots. -/
structure StepRec where
  name : String
  defaultValue : Int
  variableNames : List String
deriving Repr, DecidableEq

/-- A `Flag` record: name, a boolean default, 2 named variable slots. -/
structure FlagRec where
  name : String
  defaultValue : Bool
  variableNames : List String
deriving Repr, DecidableEq

def readStep : StreamM StepRec := do
  let nm ← stringM false
  let df ← dwordM
  let vs ← mreplicate 10 (stringM false)
  pure ⟨nm, df, vs⟩

def readFlag : StreamM FlagRec := do
  let nm ← stringM false
  let df ← booleanM
  let vs ← mreplicate 2 (stringM false)
  pure ⟨nm, df, vs⟩

/-- The fields of the tuple returned by
`SummaryFileReader.read_summary_data` (by way of its `extracted_info`
dictionary). -/
structure SummaryData where
  name : String
  author : String
  version : String
  levelMin : Int
  levelMax : Int
  couponNumber : Int
  couponName : String
  imagePaths : List String
  positionTypes : List String
  image : Option (List Nat)
  description : String
  languageCode : String
  filePath : String
deriving Repr, DecidableEq

/-- Python `x or default` for strings: the default when `x` is empty. -/
def pyOrElse (s dflt : String) : String := if s = "" then dflt else s

/-- `SummaryFileReader.read_summary_data`: the fixed field sequence of a
`.wsm` stream — image blob, name, description, author, required-coupon
name (multiline) and count, area id (from which version is derived), the
step list, the flag list, one discarded dword, and the conditional
level fields. -/
def read_summary_data (filePath : String) : StreamM SummaryData := do
  let imageData ← imageM
  let name ← stringM false
  let description ← stringM false
  let author ← stringM false
  let requiredCoupons ← stringM true
  let requiredCouponsNum ← dwordM
  let areaId ← dwordM
  let version := (versionAdjust areaId).1
  let stepsNum ← dwordM
  let _steps ← mreplicate stepsNum.toNat readStep
  let flagsNum ← dwordM
  let _flags ← mreplicate flagsNum.toNat readFlag
  let _unknown ← dwordM
  let lv ← readLevels version
  pure {
    name := pyOrElse name "Unknown"
    author := pyOrElse author "Unknown"
    version := if version = 7 then "NEXT" else "OG"
    levelMin := lv.1
    levelMax := lv.2
    couponNumber := requiredCouponsNum
    couponName := requiredCoupons
    imagePaths := []
    positionTypes := []
    image := imageData
    description := description
    languageCode := "jp"
    filePath := filePath }

/-- Continuation byte of a UTF-8 sequence. -/
def utf8Cont (b : Nat) : Bool := 0x80 ≤ b && b ≤ 0xBF

/-- Valid second byte given the lead byte (the restricted ranges that rule
out overlong encodings, surrogates, and values above U+10FFFF). -/
def utf8Second (b c1 : Nat) : Bool :=
  if b = 0xE0 then 0xA0 ≤ c1 && c1 ≤ 0xBF
  else if b = 0xED then 0x80 ≤ c1 && c1 ≤ 0x9F
  else if b = 0xF0 then 0x90 ≤ c1 && c1 ≤ 0xBF
  else if b = 0xF4 then 0x80 ≤ c1 && c1 ≤ 0x8F
  else utf8Cont c1

/-- Strict UTF-8 decoding (`bytes.decode("utf-8")`) as the standard
one-byte-at-a-time automaton: `need` is the number of continuation bytes
still expected, `lo`/`hi` bound the next byte (the restricted second-byte
ranges rule out overlong encodings, surrogates, and values above
U+10FFFF), `acc` is the partial code point; `none` is a decode failure,
turned into `UnicodeDecodeError` by the codec wrapper. -/
def utf8Go (need lo hi acc : Nat) : List Nat → Option (List Char)
  | [] => if need = 0 then some [] else none
  | b :: rest =>
    if 0 < need then
      if lo ≤ b && b ≤ hi then
        if need = 1 then
          (utf8Go 0 0 0 0 rest).map (Char.ofNat (acc * 64 + (b - 0x80)) :: ·)
        else utf8Go (need - 1) 0x80 0xBF (acc * 64 + (b - 0x80)) rest
      else none
    else
      if b < 0x80 then (utf8Go 0 0 0 0 rest).map (Char.ofNat b :: ·)
      else if 0xC2 ≤ b && b ≤ 0xDF then utf8Go 1 0x80 0xBF (b - 0xC0) rest
      else if b = 0xE0 then utf8Go 2 0xA0 0xBF 0 rest
      else if b = 0xED then utf8Go 2 0x80 0x9F 13 rest
      else if 0xE0 ≤ b && b ≤ 0xEF then utf8Go 2 0x80 0xBF (b - 0xE0) rest
      else if b = 0xF0 then utf8Go 3 0x90 0xBF 0 rest
      else if b = 0xF4 then utf8Go 3 0x80 0x8F 4 rest
      else if 0xF0 ≤ b && b ≤ 0xF4 then utf8Go 3 0x80 0xBF (b - 0xF0) rest
      else none

def utf8Strict (bs : List Nat) : Option (List Char) :=
  utf8Go 0 0 0 0 bs

/-- UTF-8 decoding with a substitution for each maximal invalid
subsequence: `sub = []` models `errors="ignore"`, `sub = [replacement]`
models `errors="replace"`. -/
def utf8SubGo (sub : List Char) : Nat → List Nat → List Char
  | _, [] => []
  | 0, _ :: _ => []
  | Nat.succ fuel, b :: rest =>
    if b < 0x80 then Char.ofNat b :: utf8SubGo sub fuel rest
    else if 0xC2 ≤ b && b ≤ 0xDF then
      match rest with
      | [] => sub
      | c1 :: rest1 =>
        if utf8Cont c1 then
          Char.ofNat ((b - 0xC0) * 64 + (c1 - 0x80)) :: utf8SubGo sub fuel rest1
        else sub ++ utf8SubGo sub fuel (c1 :: rest1)
    else if 0xE0 ≤ b && b ≤ 0xEF then
      match rest with
      | [] => sub
      | c1 :: rest1 =>
        if ! utf8Second b c1 then sub ++ utf8SubGo sub fuel (c1 :: rest1)
        else
          match rest1 with
          | [] => sub
          | c2 :: rest2 =>
            if utf8Cont c2 then
              Char.ofNat ((b - 0xE0) * 4096 + (c1 - 0x80) * 64 + (c2 - 0x80)) ::
                utf8SubGo sub fuel rest2
            else sub ++ utf8SubGo sub fuel (c2 :: rest2)
    else if 0xF0 ≤ b && b ≤ 0xF4 then
      match rest with
      | [] => sub
      | c1 :: rest1 =>
        if ! utf8Second b c1 then sub ++ utf8SubGo sub fuel (c1 :: rest1)
        else
          match rest1 with
          | [] => sub
          | c2 :: rest2 =>
            if ! utf8Cont c2 then sub ++ utf8SubGo sub fuel (c2 :: rest2)
            else
              match rest2 with
              | [] => sub
              | c3 :: rest3 =>
                if utf8Cont c3 then
                  Char.ofNat ((b - 0xF0) * 262144 + (c1 - 0x80) * 4096 +
                    (c2 - 0x80) * 64 + (c3 - 0x80)) :: utf8SubGo sub fuel rest3
                else sub ++ utf8SubGo sub fuel (c3 :: rest3)
    else sub ++ utf8SubGo sub fuel rest

def utf8Sub (sub : List Char) (bs : List Nat) : List Char :=
  utf8SubGo sub bs.length bs

/-- Strict EUC-JP decoding, modelled structurally (ASCII, the 0x8E
halfwidth-katakana plane, and 0xA1-0xFE double-byte pairs mapped
injectively outside every claimed script range); `none` is a decode
failure. -/
def eucJpStrict (bs : List Nat) : Option (List Char) :=
  match bs with
  | [] => some []
  | b :: rest =>
    if b < 0x80 then (eucJpStrict rest).map (Char.ofNat b :: ·)
    else if b = 0x8E then
      match rest with
      | t :: rest2 =>
        if 0xA1 ≤ t && t ≤ 0xDF then
          (eucJpStrict rest2).map (Char.ofNat (0xFF61 + (t - 0xA1)) :: ·)
        else none
      | [] => none
    else if 0xA1 ≤ b && b ≤ 0xFE then
      match rest with
      | t :: rest2 =>
        if 0xA1 ≤ t && t ≤ 0xFE then
          (eucJpStrict rest2).map
            (Char.ofNat (0xF0000 + (b - 0xA1) * 0x5E + (t - 0xA1)) :: ·)
        else none
      | [] => none
    else none

/-- EUC-JP decoding with a substitution for invalid sequences. -/
def eucJpSubGo (sub : List Char) : Nat → List Nat → List Char
  | _, [] => []
  | 0, _ :: _ => []
  | Nat.succ fuel, b :: rest =>
    if b < 0x80 then Char.ofNat b :: eucJpSubGo sub fuel rest
    else if b = 0x8E then
      match rest with
      | [] => sub
      | t :: rest2 =>
        if 0xA1 ≤ t && t ≤ 0xDF then
          Char.ofNat (0xFF61 + (t - 0xA1)) :: eucJpSubGo sub fuel rest2
        else sub ++ eucJpSubGo sub fuel (t :: rest2)
    else if 0xA1 ≤ b && b ≤ 0xFE then
      match rest with
      | [] => sub
      | t :: rest2 =>
        if 0xA1 ≤ t && t ≤ 0xFE then
          Char.ofNat (0xF0000 + (b - 0xA1) * 0x5E + (t - 0xA1)) :: eucJpSubGo sub fuel rest2
        else sub ++ eucJpSubGo sub fuel (t :: rest2)
    else sub ++ eucJpSubGo sub fuel rest

def eucJpSub (sub : List Char) (bs : List Nat) : List Char :=
  eucJpSubGo sub bs.length bs

/-- Latin-1 (`str.encode("latin-1")`): fails when a character is above
U+00FF, else bytes are the code points. -/
def latin1EncodeStrict (cs : List Char) : Except PyErr (List Nat) :=
  if cs.all (fun c => c.toNat ≤ 0xFF) then .ok (cs.map (·.toNat))
  else .error .unicodeEncodeError

/-- `str.encode("latin-1", errors="ignore")`: drops characters above
U+00FF. -/
def latin1EncodeIgnore (cs : List Char) : List Nat :=
  (cs.filter (fun c => c.toNat ≤ 0xFF)).map (·.toNat)

/-- `bytes.decode("ascii", errors="ignore")`: keeps bytes below 0x80. -/
def asciiIgnore (bs : List Nat) : List Char :=
  (bs.filter (· < 0x80)).map Char.ofNat

/-- The codecs the model's registry knows. -/
inductive Codec where
  | utf8
  | cp932Codec
  | shiftJis
  | eucJp
  | latin1
  | asciiCodec
deriving Repr, DecidableEq

/-- Python's codec-name normalization: lower-case, with hyphens, spaces
and dots turned into underscores. -/
def normEncName (s : String) : String :=
  String.mk (s.data.map (fun c =>
    let c := c.toLower
    if c = '-' || c = ' ' || c = '.' then '_' else c))

/-- Model of the codec registry lookup: the aliases of the codecs this
program can reach; any other name raises `LookupError`. -/
def codecOf (name : String) : Option Codec :=
  let n := normEncName name
  if n = "utf_8" || n = "utf8" || n = "u8" then some .utf8
  else if n = "cp932" || n = "932" || n = "ms932" || n = "mskanji" || n = "ms_kanji" then
    some .cp932Codec
  else if n = "shift_jis" || n = "sjis" || n = "s_jis" then some .shiftJis
  else if n = "euc_jp" || n = "eucjp" then some .eucJp
  else if n = "latin_1" || n = "latin1" || n = "iso_8859_1" || n = "iso8859_1" || n = "l1" then
    some .latin1
  else if n = "ascii" || n = "us_ascii" || n = "646" then some .asciiCodec
  else none

/-- Strict decode for each codec.  Shift_JIS shares the CP932 structural
model: no claim depends on where the two tables differ. -/
def codecDec : Codec → List Nat → Option (List Char)
  | .utf8 => utf8Strict
  | .cp932Codec => cp932Strict
  | .shiftJis => cp932Strict
  | .eucJp => eucJpStrict
  | .latin1 => fun bs => some (bs.map Char.ofNat)
  | .asciiCodec => fun bs =>
      if bs.all (· < 0x80) then some (bs.map Char.ofNat)
      else none

/-- Decode with substitution for each codec (`errors="replace"` or
`errors="ignore"`). -/
def codecSub (sub : List Char) : Codec → List Nat → List Char
  | .utf8 => utf8Sub sub
  | .cp932Codec => cp932Sub sub
  | .shiftJis => cp932Sub sub
  | .eucJp => eucJpSub sub
  | .latin1 => fun bs => bs.map Char.ofNat
  | .asciiCodec => fun bs =>
      (bs.map (fun b => if b < 0x80 then [Char.ofNat b] else sub)).flatten

/-- `bytes.decode(name)`: codec lookup (`LookupError` when the name is
unknown) then strict decode (`UnicodeDecodeError` on failure). -/
def pyDecodeStrict (name : String) (bs : List Nat) : Except PyErr String :=
  match codecOf name with
  | some c =>
    match codecDec c bs with
    | some cs => .ok (String.mk cs)
    | none => .error .unicodeDecodeError
  | none => .error .lookupError

/-- `bytes.decode(name, errors="replace")`: codec lookup then decode with
replacement characters; only the lookup can fail. -/
def pyDecodeReplace (name : String) (bs : List Nat) : Except PyErr String :=
  match codecOf name with
  | some c => .ok (String.mk (codecSub [replChar] c bs))
  | none => .error .lookupError

/-- List-level startsWith on characters. -/
def startsWithL : List Char → List Char → Bool
  | [], _ => true
  | _ :: _, [] => false
  | p :: ps, c :: cs => p = c && startsWithL ps cs

/-- ASCII-case lower of a string (Python `str.lower()`; all names this
program tests are ASCII). -/
def pyLower (s : String) : String := String.mk (s.data.map Char.toLower)

/-- Python `str.endswith(suffix)` on the character lists. -/
def strEndsWith (s suffix : String) : Bool :=
  startsWithL suffix.data.reverse s.data.reverse

/-- The fixed part of the header pattern `encoding="([^\x22]+)"`. -/
def encPat : List Char := "encoding=\"".data

/-- Characters before the first quote, provided the quote exists. -/
def takeUntilQuote : List Char → Option (List Char)
  | [] => none
  | c :: rest =>
    if c = '"' then some []
    else (takeUntilQuote rest).map (c :: ·)

/-- The group captured at one candidate position: at least one non-quote
character followed by the closing quote. -/
def captureEnc (l : List Char) : Option (List Char) :=
  match takeUntilQuote l with
  | some (x :: xs) => some (x :: xs)
  | _ => none

/-- `re.search` for the declaration pattern: the first position where the
whole pattern (with its closing quote) matches. -/
def searchEnc (cs : List Char) : Option (List Char) :=
  match cs with
  | [] => none
  | _ :: rest =>
    if startsWithL encPat cs then
      match captureEnc (cs.drop encPat.length) with
      | some r => some r
      | none => searchEnc rest
    else searchEnc rest

/-- The encoding name `read_with_encoding` resolves from the header: the
`encoding="..."` declaration found in the first 100 bytes (ASCII with
invalid bytes ignored), defaulting to UTF-8. -/
def declaredEncoding (raw : List Nat) : String :=
  match searchEnc (asciiIgnore (raw.take 100)) with
  | some e => String.mk e
  | none => "utf-8"

/-- The decode attempts of `read_with_encoding`: strictly decode with the
resolved encoding; on `UnicodeDecodeError` retry CP932; on another
`UnicodeDecodeError` force-decode UTF-8 with `errors="ignore"` (which
DROPS invalid bytes).  Errors other than `UnicodeDecodeError` (in
particular `LookupError` from an unknown declared encoding) are not
caught. -/
def decodeChain (encoding : String) (raw : List Nat) : Except PyErr String :=
  match pyDecodeStrict encoding raw with
  | .ok s => .ok s
  | .error .unicodeDecodeError =>
    match pyDecodeStrict "CP932" raw with
    | .ok s => .ok s
    | .error .unicodeDecodeError => .ok (String.mk (utf8Sub [] raw))
    | .error e => .error e
  | .error e => .error e

/-- `read_with_encoding`: header encoding extraction, then the decode
chain. -/
def read_with_encoding (raw : List Nat) : Except PyErr String :=
  decodeChain (declaredEncoding raw) raw

/-- The candidate loop of `decode_filename`: for each encoding, encode the
name as Latin-1 (a `UnicodeEncodeError` is caught and the loop continues)
and decode with `errors="replace"` (a `UnicodeDecodeError` would be caught
likewise); any other exception escapes the inner `try`. -/
def tryEncodingsLoop (name : String) : List String → Except PyErr (Option String)
  | [] => .ok none
  | enc :: rest =>
    match latin1EncodeStrict name.data with
    | .error _ => tryEncodingsLoop name rest
    | .ok bytes =>
      match pyDecodeReplace enc bytes with
      | .ok s => .ok (some s)
      | .error .unicodeDecodeError => tryEncodingsLoop name rest
      | .error e => .error e

/-- `decode_filename`: the fixed candidate list, then a retry with the
encoding reported by `chardet.detect` (modelled by the quantified `det`),
all wrapped in an outer handler that returns the original name on any
exception; the fall-through of the function body also returns the original
name. -/
def decode_filename (det : List Nat → Option String) (name : String) : String :=
  let body : Except PyErr String :=
    match tryEncodingsLoop name ["utf-8", "shift_jis", "euc-jp", "cp932"] with
    | .ok (some result) => .ok result
    | .error e => .error e
    | .ok none =>
      let ign := latin1EncodeIgnore name.data
      match det ign with
      | some detected =>
        match pyDecodeReplace detected ign with
        | .ok s => .ok s
        | .error .unicodeDecodeError => .ok name
        | .error .unicodeEncodeError => .ok name
        | .error e => .error e
      | none => .ok name
  match body with
  | .ok s => s
  | .error _ => name

/-- One archive entry as seen by `JapaneseZipHandler`
(`src/utils_and_ui.py`): the format-level UTF-8 name flag (bit 0x800 of
`flag_bits`) and the stored raw name bytes.  When the flag is unset,
`zipfile` decodes stored bytes with CP437 and the handler re-encodes with
CP437, an identity round trip, so the model works with the stored bytes
directly. -/
structure JZEntry where
  flagUtf8 : Bool
  rawNameBytes : List Nat

/-- The candidate codepages of `detect_filename_encoding`, in priority
order. -/
def jpCodecNames : List String := ["cp932", "shift_jis", "euc_jp"]

/-- One code point in the Hiragana, Katakana, or CJK-ideograph ranges (the
`HIRAGANA_RANGE`/`KATAKANA_RANGE`/`KANJI_RANGE` regexes). -/
def containsJapanese (s : String) : Bool :=
  s.data.any (fun c =>
    (0x3040 ≤ c.toNat && c.toNat ≤ 0x309F) ||
    (0x30A0 ≤ c.toNat && c.toNat ≤ 0x30FF) ||
    (0x4E00 ≤ c.toNat && c.toNat ≤ 0x9FFF))

/-- The candidate loop of `detect_filename_encoding`: strict decode with
each candidate (`UnicodeDecodeError` is caught and the loop continues);
the first candidate whose decoded text contains a Japanese-range code
point is selected; any other exception escapes to the outer handler. -/
def tryJpEncodings (dec : String → List Nat → Except PyErr String)
    (raw : List Nat) : List String → Except PyErr (Option String)
  | [] => .ok none
  | enc :: rest =>
    match dec enc raw with
    | .ok decoded =>
      if containsJapanese decoded then .ok (some enc)
      else tryJpEncodings dec raw rest
    | .error .unicodeDecodeError => tryJpEncodings dec raw rest
    | .error e => .error e

/-- `JapaneseZipHandler.detect_filename_encoding`: UTF-8 when any entry
has the format-level flag; else sample the first entry name and try the
candidate codepages; fall back to CP437 when none matches, when the
archive has no entries (`namelist()[0]` raises, caught by the outer
handler), or when any other exception reaches the outer handler. -/
def detect_filename_encoding (dec : String → List Nat → Except PyErr String)
    (entries : List JZEntry) : String :=
  if entries.any (·.flagUtf8) then "utf-8"
  else
    match entries.head? with
    | none => "cp437"
    | some e =>
      match tryJpEncodings dec e.rawNameBytes jpCodecNames with
      | .ok (some enc) => enc
      | .ok none => "cp437"
      | .error _ => "cp437"

/-- Python values stored in the scanner's dictionaries. -/
inductive Val where
  | vstr (s : String)
  | vint (n : Int)
  | vlist (l : List String)
  | vbytes (b : List Nat)
  | vnone
  | vdict (d : List (String × Val))
deriving Repr

/-- A Python dict in insertion order. -/
abbrev Dict := List (String × Val)

/-- Python `dict.get(key, default)`: the value at the first matching key,
else the default. -/
def dget (d : Dict) (k : String) (dflt : Val) : Val :=
  match d with
  | [] => dflt
  | p :: rest => if p.1 == k then p.2 else dget rest k dflt

/-- Key membership in a dict. -/
def dkeyMem (d : Dict) (k : String) : Bool :=
  match d with
  | [] => false
  | p :: rest => p.1 == k || dkeyMem rest k

/-- `dict.get` on a nested dict value (the `RequiredCoupons` sub-dict);
only dict values are stored under that key. -/
def vdget (v : Val) (k : String) (dflt : Val) : Val :=
  match v with
  | .vdict d => dget d k dflt
  | _ => dflt

/-- Python `d[key] = v`: update in place when the key exists (keeping its
position), else append. -/
def dset (d : Dict) (k : String) (v : Val) : Dict :=
  if dkeyMem d k then
    d.map (fun p => if p.1 == k then (k, v) else p)
  else d ++ [(k, v)]

/-- The `dict(zip([...], extracted_data))` built from the summary tuple in
the `.wsm` branch of `extract_info_from_scenario`. -/
def wsmInfoDict (r : SummaryData) : Dict :=
  [("Name", .vstr r.name),
   ("Author", .vstr r.author),
   ("Version", .vstr r.version),
   ("Level min", .vint r.levelMin),
   ("Level max", .vint r.levelMax),
   ("RequiredCoupons_number", .vint r.couponNumber),
   ("RequiredCoupons_name", .vstr r.couponName),
   ("image_paths", .vlist r.imagePaths),
   ("position_types", .vlist r.positionTypes),
   ("image_data", match r.image with | some b => .vbytes b | none => .vnone),
   ("description", .vstr r.description),
   ("language_code", .vstr r.languageCode),
   ("file_path", .vstr r.filePath)]

/-- The `.wsm` branch of `extract_info_from_scenario`: decode the stream;
the surrounding handler catches every exception and leaves
`extracted_info` as the initial empty dict.  (The `filePath` argument is
what the code hands to `SummaryFileReader`; the dict's `file_path` entry
is overwritten with the actual path afterwards.) -/
def extract_info_wsm (stream : List Nat) (filePath actualPath : String) : Dict :=
  match read_summary_data filePath stream with
  | .ok (r, _) => dset (wsmInfoDict r) "file_path" (.vstr actualPath)
  | .error _ => []

/-- The literal default dict returned by the `.wsn` branch when the
archive raises `BadZipFile`. -/
def wsnBadZipInfo (actualPath : String) : Dict :=
  [("Name", .vstr "Unknown"),
   ("Author", .vstr "Unknown"),
   ("Version", .vstr "Py"),
   ("Level min", .vstr ""),
   ("Level max", .vstr ""),
   ("RequiredCoupons", .vdict [("number", .vint 0), ("name", .vstr "")]),
   ("image_paths", .vlist []),
   ("position_types", .vlist []),
   ("description", .vstr ""),
   ("language_code", .vstr "Unknown"),
   ("file_path", .vstr actualPath)]

/-- One stored entry of a zip archive: raw stored name (as `zipfile`
reports it), content bytes, and whether reading it demands a password
(in which case `zipfile` raises `RuntimeError`). -/
structure ZipEntry where
  rawName : String
  content : List Nat
  encrypted : Bool

/-- A path with an archive extension either opens as a zip or raises
`BadZipFile`. -/
inductive Archive where
  | bad
  | withEntries (es : List ZipEntry)

/-- The `.wsn` branch of `extract_info_from_scenario`: open the archive
(`BadZipFile` is the only exception caught, yielding the literal default
dict); collect decoded names of `.xml`-suffixed entries; find the first
decoded name case-insensitively EQUAL to `summary.xml`; open it by that
decoded name (`KeyError` when no stored name matches, `RuntimeError` when
encrypted — neither is caught), run `read_with_encoding` and the XML field
parser on it; in every non-raising case force `Version` to `Py` and set
`file_path`. -/
def wsnXmlNames (det : List Nat → Option String) (es : List ZipEntry) :
    List String :=
  (es.filter (fun e => strEndsWith (pyLower e.rawName) ".xml")).map
    (fun e => decode_filename det e.rawName)

def extract_info_wsn_entries (det : List Nat → Option String)
    (parseXml : String → Dict) (es : List ZipEntry) (path : String) :
    Except PyErr Dict :=
  match (wsnXmlNames det es).find? (fun f => pyLower f == "summary.xml") with
  | some summaryName =>
    match es.find? (fun e => e.rawName == summaryName) with
    | none => .error .keyError
    | some ent =>
      if ent.encrypted then .error .runtimeError
      else do
        let xmlData ← read_with_encoding ent.content
        let d := parseXml xmlData
        pure (dset (dset d "Version" (.vstr "Py")) "file_path" (.vstr path))
  | none => .ok (dset (dset ([] : Dict) "Version" (.vstr "Py")) "file_path" (.vstr path))

def extract_info_wsn (det : List Nat → Option String) (parseXml : String → Dict)
    (arc : Archive) (path : String) : Except PyErr Dict :=
  match arc with
  | .bad => .ok (wsnBadZipInfo path)
  | .withEntries es => extract_info_wsn_entries det parseXml es path

/-- What the directory walker found at one path; the constructor records
which of the walker's filename tests (`.zip`, `.wsn`, `.wsm`,
`summary.xml`, case-insensitive) classified the file. -/
inductive FsFile where
  | wsmFile (stream : List Nat)
  | wsnFile (arc : Archive)
  | zipFile (arc : Archive)
  | summaryXmlFile (content : List Nat)
  | otherFile

structure FsEntry where
  path : String
  mtime : Int
  file : FsFile

/-- `extract_info_from_scenario` for a direct (non-zip-nested) path: the
function re-tests the path itself with CASE-SENSITIVE `endswith` (the
walker's test lower-cased the name, this one does not), and the `.wsn`
branch additionally requires the path to contain no `!`.  A path matching
neither test returns the initial empty dict. -/
def extract_info_nonzip (det : List Nat → Option String) (parseXml : String → Dict)
    (path : String) (file : FsFile) : Except PyErr Dict :=
  if strEndsWith path ".wsn" && !(path.data.contains '!') then
    match file with
    | .wsnFile arc => extract_info_wsn det parseXml arc path
    | _ => .ok []
  else if strEndsWith path ".wsm" then
    match file with
    | .wsmFile s => .ok (extract_info_wsm s path path)
    | _ => .ok []
  else .ok []

/-- The per-record dict literal appended by the first pass of
`find_files_with_content`, with its `.get` defaults. -/
def mkFileData (d : Dict) (filePath : String) (mtime : Int) : Dict :=
  [("file_path", dget d "file_path" (.vstr filePath)),
   ("title", dget d "Name" (.vstr "Unknown")),
   ("author", dget d "Author" (.vstr "Unknown")),
   ("version", dget d "Version" (.vstr "Py")),
   ("level_min", dget d "Level min" (.vstr "")),
   ("level_max", dget d "Level max" (.vstr "")),
   ("coupon_number", vdget (dget d "RequiredCoupons" (.vdict [])) "number" (.vint 0)),
   ("coupon_name", vdget (dget d "RequiredCoupons" (.vdict [])) "name" (.vstr "")),
   ("image_paths", dget d "image_paths" (.vlist [])),
   ("position_types", dget d "position_types" (.vlist [])),
   ("image_data", .vnone),
   ("description", dget d "description" (.vstr "")),
   ("lang", dget d "language_code" (.vstr "Unknown")),
   ("modification_time", .vint mtime),
   ("limit_value", .vint 0),
   ("play_time", .vnone),
   ("mark", .vstr "mark00"),
   ("tags", .vlist [])]

/-- The per-record dict literal appended by the zip pass: identical except
that `file_path` is the `"<zipPath>!<entryName>"` string directly and the
timestamp is the zip's. -/
def mkFileDataZip (d : Dict) (zipPath entryName : String) (zipMtime : Int) : Dict :=
  [("file_path", .vstr (zipPath ++ "!" ++ entryName)),
   ("title", dget d "Name" (.vstr "Unknown")),
   ("author", dget d "Author" (.vstr "Unknown")),
   ("version", dget d "Version" (.vstr "Py")),
   ("level_min", dget d "Level min" (.vstr "")),
   ("level_max", dget d "Level max" (.vstr "")),
   ("coupon_number", vdget (dget d "RequiredCoupons" (.vdict [])) "number" (.vint 0)),
   ("coupon_name", vdget (dget d "RequiredCoupons" (.vdict [])) "name" (.vstr "")),
   ("image_paths", dget d "image_paths" (.vlist [])),
   ("position_types", dget d "position_types" (.vlist [])),
   ("image_data", .vnone),
   ("description", dget d "description" (.vstr "")),
   ("lang", dget d "language_code" (.vstr "Unknown")),
   ("modification_time", .vint zipMtime),
   ("limit_value", .vint 0),
   ("play_time", .vnone),
   ("mark", .vstr "mark00"),
   ("tags", .vlist [])]

/-- One step of the walker's first pass: zips are postponed, `.wsn`/`.wsm`
files go through `extract_info_from_scenario`, `summary.xml` files are
read and parsed directly, anything else is skipped; a non-empty
`extracted_info` dict (Python truthiness) becomes a record. -/
def scanOne (det : List Nat → Option String) (parseXml : String → Dict)
    (e : FsEntry) : Except PyErr (Option Dict) :=
  match e.file with
  | .zipFile _ => .ok none
  | .wsnFile _ => do
      let d ← extract_info_nonzip det parseXml e.path e.file
      pure (if d.isEmpty then none else some (mkFileData d e.path e.mtime))
  | .wsmFile _ => do
      let d ← extract_info_nonzip det parseXml e.path e.file
      pure (if d.isEmpty then none else some (mkFileData d e.path e.mtime))
  | .summaryXmlFile content => do
      let xmlData ← read_with_encoding content
      let d := parseXml xmlData
      pure (if d.isEmpty then none else some (mkFileData d e.path e.mtime))
  | .otherFile => .ok none

def scanPass1 (det : List Nat → Option String) (parseXml : String → Dict) :
    List FsEntry → Except PyErr (List Dict)
  | [] => .ok []
  | e :: rest => do
      let hd ← scanOne det parseXml e
      let tl ← scanPass1 det parseXml rest
      pure (match hd with | some d => d :: tl | none => tl)

/-- `parse_summary_from_zip`: empty entries yield an empty dict; `.xml`
names are read and parsed (only `ET.ParseError` is caught, and the XML
field parser already handles it internally); other names — necessarily
`summary.wsm` given the caller's filter — go through the `.wsm` branch of
`extract_info_from_scenario` with `is_zip=True`, whose handler catches
every exception. -/
def parse_summary_from_zip (parseXml : String → Dict)
    (content : List Nat) (fileName zipPath : String) : Except PyErr Dict :=
  if content.isEmpty then .ok []
  else if strEndsWith (pyLower fileName) ".xml" then do
    let xmlData ← read_with_encoding content
    pure (parseXml xmlData)
  else
    let actual := zipPath ++ "!" ++ fileName
    if strEndsWith (pyLower fileName) ".wsm" then
      .ok (extract_info_wsm content actual actual)
    else .ok []

/-- The inner loop of the zip pass over the DECODED entry names: matching
names are opened by their decoded string (`KeyError` when it differs from
every stored name, `RuntimeError` when the entry is encrypted — nothing in
this pass catches either), parsed, and appended when non-empty. -/
def processZipNames (det : List Nat → Option String) (parseXml : String → Dict)
    (es : List ZipEntry) (zipPath : String) (zmtime : Int) :
    List String → Except PyErr (List Dict)
  | [] => .ok []
  | nm :: rest =>
    if strEndsWith (pyLower nm) "summary.xml" || strEndsWith (pyLower nm) "summary.wsm" then do
      let ent ← match es.find? (fun en => en.rawName == nm) with
        | some en => Except.ok en
        | none => Except.error PyErr.keyError
      if ent.encrypted then Except.error PyErr.runtimeError
      else do
        let d ← parse_summary_from_zip parseXml ent.content nm zipPath
        let tl ← processZipNames det parseXml es zipPath zmtime rest
        pure ((if d.isEmpty then [] else [mkFileDataZip d zipPath nm zmtime]) ++ tl)
    else processZipNames det parseXml es zipPath zmtime rest

/-- The zip pass of `find_files_with_content`: `zipfile.ZipFile` on a bad
archive raises `BadZipFile`, which nothing in this function catches. -/
def scanZips (det : List Nat → Option String) (parseXml : String → Dict) :
    List FsEntry → Except PyErr (List Dict)
  | [] => .ok []
  | e :: rest =>
    match e.file with
    | .zipFile arc => do
        let hd ← match arc with
          | .bad => Except.error PyErr.badZipFile
          | .withEntries es =>
              processZipNames det parseXml es e.path e.mtime
                (es.map (fun en => decode_filename det en.rawName))
        let tl ← scanZips det parseXml rest
        pure (hd ++ tl)
    | _ => scanZips det parseXml rest

/-- `find_files_with_content`: the walk's first pass over non-zip files,
then the zip pass, in walk order. -/
def find_files_with_content (det : List Nat → Option String)
    (parseXml : String → Dict) (entries : List FsEntry) :
    Except PyErr (List Dict) := do
  let files1 ← scanPass1 det parseXml entries
  let files2 ← scanZips det parseXml entries
  pure (files1 ++ files2)

/-- Boolean success test on a decode result. -/
def isOkB {α : Type} : Except PyErr α → Bool
  | .ok _ => true
  | .error _ => false

/-- Sample well-formed `.wsm` stream: empty image, empty strings, zero
counts, area id 0 — forty zero bytes. -/
def sampleWsmStream : List Nat := List.replicate 40 0

/-- The record decoded from `sampleWsmStream`. -/
def sampleWsmRecord : SummaryData :=
  { name := "Unknown", author := "Unknown", version := "OG", levelMin := 0,
    levelMax := 0, couponNumber := 0, couponName := "", imagePaths := [],
    positionTypes := [], image := none, description := "",
    languageCode := "jp", filePath := "b.wsm" }

theorem dropWhile_nul_replicate (a : Nat) (l : List Char) :
    List.dropWhile (· = '\x00') (List.replicate a '\x00' ++ l) =
      List.dropWhile (· = '\x00') l := by
  induction a with
  | zero => simp
  | succ k ih =>
    rw [List.replicate_succ, List.cons_append,
      List.dropWhile_cons_of_pos (by decide)]
    exact ih

theorem dropWhile_nul_of_head (l : List Char) (h : l.head? ≠ some '\x00') :
    List.dropWhile (· = '\x00') l = l := by
  cases l with
  | nil => simp
  | cons c cs =>
    have hc : c ≠ '\x00' := by
      intro hc; exact h (by simp [hc])
    simp [List.dropWhile, hc]

theorem stripNulL_spec (a b : Nat) (cs : List Char)
    (h1 : cs.head? ≠ some '\x00') (h2 : cs.getLast? ≠ some '\x00') :
    stripNulL (List.replicate a '\x00' ++ cs ++ List.replicate b '\x00') = cs := by
  unfold stripNulL
  rw [List.append_assoc, dropWhile_nul_replicate]
  cases cs with
  | nil =>
    simp only [List.nil_append]
    rw [show List.replicate b '\x00' = List.replicate b '\x00' ++ ([] : List Char) by simp,
        dropWhile_nul_replicate]
    simp
  | cons c cs0 =>
    have hc : c ≠ '\x00' := by
      intro hc; exact h1 (by simp [hc])
    have step1 : List.dropWhile (· = '\x00') ((c :: cs0) ++ List.replicate b '\x00') =
        (c :: cs0) ++ List.replicate b '\x00' := by
      rw [List.cons_append, List.dropWhile_cons]
      simp [hc]
    rw [step1, List.reverse_append, List.reverse_replicate, dropWhile_nul_replicate,
        dropWhile_nul_of_head]
    · simp
    · rw [List.head?_reverse]
      exact h2

theorem fixedRead_ok (n : Nat) (s : List Nat) (h : n ≤ s.length) :
    fixedRead n s = .ok (s.take n, s.drop n) := by
  simp [fixedRead, List.length_take, Nat.min_eq_left h]

theorem fixedRead_err (n : Nat) (s : List Nat) (h : s.length < n) :
    fixedRead n s = .error .truncatedRecord := by
  have : (s.take n).length = s.length := by
    simp [List.length_take]; omega
  simp [fixedRead, this]
  omega

theorem StreamM.bind_ok {α β : Type} (p : StreamM α) (f : α → StreamM β)
    (s rest : List Nat) (a : α) (h : p s = .ok (a, rest)) :
    (p >>= f) s = f a rest := by
  rw [StreamM.bind_def, h]

theorem dwordM_ok (s : List Nat) (h : 4 ≤ s.length) :
    dwordM s = .ok (toSigned 32 (leVal (s.take 4)), s.drop 4) := by
  unfold dwordM
  rw [StreamM.bind_ok _ _ _ _ _ (fixedRead_ok 4 s h)]
  rfl

/-- C1: for every area id read from a `.wsm` stream, the version and
adjusted area id are derived by the first-match, non-overlapping partition
`id ≤ 19999 ↦ (0, id)`, `19999 < id ≤ 39999 ↦ (2, id − 20000)`,
`39999 < id ≤ 49999 ↦ (4, id − 40000)`, `id > 49999 ↦ (7, id − 70000)`;
and the level fields are read from the stream (two little-endian signed
dwords) if and only if the version is positive, both being reported as 0
when the version is 0 with nothing consumed. -/
theorem C1_version_partition :
    ∀ areaId : Int,
      (areaId ≤ 19999 → versionAdjust areaId = (0, areaId)) ∧
      (19999 < areaId → areaId ≤ 39999 → versionAdjust areaId = (2, areaId - 20000)) ∧
      (39999 < areaId → areaId ≤ 49999 → versionAdjust areaId = (4, areaId - 40000)) ∧
      (49999 < areaId → versionAdjust areaId = (7, areaId - 70000)) ∧
      (∀ s : List Nat, readLevels 0 s = .ok ((0, 0), s)) ∧
      (∀ v : Nat, 0 < v → ∀ b0 b1 b2 b3 b4 b5 b6 b7 : Nat, ∀ rest : List Nat,
        readLevels v (b0 :: b1 :: b2 :: b3 :: b4 :: b5 :: b6 :: b7 :: rest) =
          .ok ((toSigned 32 (leVal [b0, b1, b2, b3]),
                toSigned 32 (leVal [b4, b5, b6, b7])), rest)) := by
  intro areaId
  refine ⟨?_, ?_, ?_, ?_, ?_, ?_⟩
  · intro h; simp [versionAdjust, h]
  · intro h1 h2
    rw [versionAdjust, if_neg (by omega), if_pos h2]
  · intro h1 h2
    rw [versionAdjust, if_neg (by omega), if_neg (by omega), if_pos h2]
  · intro h
    rw [versionAdjust, if_neg (by omega), if_neg (by omega), if_neg (by omega)]
  · intro s; rfl
  · intro v hv b0 b1 b2 b3 b4 b5 b6 b7 rest
    rw [readLevels, if_pos hv]
    rfl

/-- Witness for C1 at the partition boundaries and a concrete level
read. -/
theorem C1_version_partition_witness :
    versionAdjust 0 = (0, 0) ∧ versionAdjust 19999 = (0, 19999) ∧
    versionAdjust 20000 = (2, 0) ∧ versionAdjust 39999 = (2, 19999) ∧
    versionAdjust 40000 = (4, 0) ∧ versionAdjust 49999 = (4, 9999) ∧
    versionAdjust 50000 = (7, -20000) ∧
    readLevels 0 [9, 9] = .ok ((0, 0), [9, 9]) ∧
    readLevels 2 [1, 0, 0, 0, 255, 255, 255, 255, 7] = .ok ((1, -1), [7]) := by
  refine ⟨(C1_version_partition 0).1 (by norm_num),
          (C1_version_partition 19999).1 (by norm_num),
          by exact (C1_version_partition 20000).2.1 (by norm_num) (by norm_num),
          by simpa using (C1_version_partition 39999).2.1 (by norm_num) (by norm_num),
          by simpa using (C1_version_partition 40000).2.2.1 (by norm_num) (by norm_num),
          by simpa using (C1_version_partition 49999).2.2.1 (by norm_num) (by norm_num),
          by simpa using (C1_version_partition 50000).2.2.2.1 (by norm_num),
          (C1_version_partition 0).2.2.2.2.1 [9, 9],
          ?_⟩
  have h := (C1_version_partition 0).2.2.2.2.2 2 (by norm_num) 1 0 0 0 255 255 255 255 [7]
  rw [h]
  norm_num [leVal, toSigned]

/-- C7 counterexample: a two-byte payload `00 41` decodes to a string with
a leading NUL, and `rawstring` strips that LEADING NUL as well — the
result is `"A"`, not the claimed `"\x00A"` with leading characters left
intact. -/
theorem C7_counterexample :
    rawstringM [2, 0, 0, 0, 0, 65] = .ok ("A", []) ∧
    ("A" : String) ≠ String.mk ['\x00', 'A'] := by
  exact ⟨by decide, by decide⟩

/-- C7 (amended): `rawstring` reads a 4-byte signed length `n`; when
`n = 0` it returns the empty string consuming nothing beyond the length;
when `n > 0` and `n` payload bytes are available it reads exactly those
`n` bytes, decodes them as CP932 with permissive substitution, and strips
NUL padding from BOTH ends of the result (leading NULs are stripped too);
interior characters are kept. -/
theorem C7_rawstring_amended :
    (∀ s : List Nat, 4 ≤ s.length → toSigned 32 (leVal (s.take 4)) = 0 →
      rawstringM s = .ok ("", s.drop 4)) ∧
    (∀ four payload rest : List Nat, four.length = 4 →
      0 < toSigned 32 (leVal four) →
      payload.length = (toSigned 32 (leVal four)).toNat →
      rawstringM (four ++ (payload ++ rest)) =
        .ok (String.mk (stripNulL (cp932Sub [replChar] payload)), rest)) ∧
    (∀ (a b : Nat) (cs : List Char), cs.head? ≠ some '\x00' →
      cs.getLast? ≠ some '\x00' →
      stripNulL (List.replicate a '\x00' ++ cs ++ List.replicate b '\x00') = cs) := by
  refine ⟨?_, ?_, stripNulL_spec⟩
  · intro s hlen hval
    unfold rawstringM
    rw [StreamM.bind_ok _ _ _ _ _ (dwordM_ok s hlen), hval]
    rfl
  · intro four payload rest h4 hpos hplen
    have hlen : 4 ≤ (four ++ (payload ++ rest)).length := by
      simp [h4]
    have htake : ((four ++ (payload ++ rest)).take 4) = four := by
      rw [← h4]; exact List.take_left four (payload ++ rest)
    have hdrop : ((four ++ (payload ++ rest)).drop 4) = payload ++ rest := by
      rw [← h4]; exact List.drop_left four (payload ++ rest)
    have hne : toSigned 32 (leVal four) ≠ 0 := by omega
    have hnneg : ¬ toSigned 32 (leVal four) < 0 := by omega
    have hdw : dwordM (four ++ (payload ++ rest)) =
        .ok (toSigned 32 (leVal four), payload ++ rest) := by
      rw [dwordM_ok _ hlen, htake, hdrop]
    have hcw : cwread (toSigned 32 (leVal four)) (payload ++ rest) =
        .ok (payload, rest) := by
      unfold cwread
      rw [if_neg hnneg, ← hplen, List.take_left, List.drop_left]
    unfold rawstringM
    rw [StreamM.bind_ok _ _ _ _ _ hdw, if_pos hne,
        StreamM.bind_ok _ _ _ _ _ hcw]
    rfl

/-- Witness for C7 (amended) at concrete streams: a zero length, and a
positive length whose payload has NUL padding on both sides. -/
theorem C7_rawstring_amended_witness :
    rawstringM [0, 0, 0, 0, 7] = .ok ("", [7]) ∧
    rawstringM [4, 0, 0, 0, 0, 65, 66, 0, 9] = .ok ("AB", [9]) ∧
    stripNulL (List.replicate 1 '\x00' ++ ['A', 'B'] ++ List.replicate 1 '\x00') = ['A', 'B'] := by
  refine ⟨?_, ?_, C7_rawstring_amended.2.2 1 1 ['A', 'B'] (by decide) (by decide)⟩
  · have h := C7_rawstring_amended.1 [0, 0, 0, 0, 7] (by norm_num) (by decide)
    have h2 : rawstringM [0, 0, 0, 0, 7] = .ok ("", [7]) := by
      rw [h]; decide
    exact h2
  · have h := C7_rawstring_amended.2.1 [4, 0, 0, 0] [0, 65, 66, 0] [9]
      (by norm_num) (by decide) (by decide)
    have h2 : rawstringM [4, 0, 0, 0, 0, 65, 66, 0, 9] =
        .ok (String.mk (stripNulL (cp932Sub [replChar] [0, 65, 66, 0])), [9]) := h
    rw [h2]
    decide

/-- Predicate transport along the summary reader: every successful result
satisfies `P` provided every `pure` at the end of the chain does. -/
def AllOkHave {α : Type} (p : StreamM α) (P : α → Prop) : Prop :=
  ∀ s r rest, p s = .ok (r, rest) → P r

theorem allOk_bind {α β : Type} {P : β → Prop} (p : StreamM α)
    (f : α → StreamM β) (hf : ∀ a, AllOkHave (f a) P) :
    AllOkHave (p >>= f) P := by
  intro s r rest h
  rw [StreamM.bind_def] at h
  cases hp : p s with
  | error e => rw [hp] at h; cases h
  | ok v => rw [hp] at h; exact hf v.1 v.2 r rest h

theorem allOk_pure {α : Type} {P : α → Prop} (a : α) (h : P a) :
    AllOkHave (pure a) P := by
  intro s r rest hr
  rw [StreamM.pure_def] at hr
  cases hr
  exact h

/-- C10: every record decoded from a `.wsm` binary stream carries the
language code `"jp"` unconditionally — the decoder never consults the
script-counting language detector, whatever text the stream contains. -/
theorem C10_wsm_language_jp :
    ∀ (filePath : String) (s : List Nat) (r : SummaryData) (rest : List Nat),
      read_summary_data filePath s = .ok (r, rest) → r.languageCode = "jp" := by
  intro filePath
  have : AllOkHave (read_summary_data filePath) (fun r => r.languageCode = "jp") := by
    unfold read_summary_data
    apply allOk_bind; intro a1
    apply allOk_bind; intro a2
    apply allOk_bind; intro a3
    apply allOk_bind; intro a4
    apply allOk_bind; intro a5
    apply allOk_bind; intro a6
    apply allOk_bind; intro a7
    apply allOk_bind; intro a8
    apply allOk_bind; intro a9
    apply allOk_bind; intro a10
    apply allOk_bind; intro a11
    apply allOk_bind; intro a12
    apply allOk_bind; intro a13
    exact allOk_pure _ rfl
  intro s r rest h
  exact this s r rest h

/-- Witness for C10: a concrete stream decodes with language code
`"jp"`. -/
theorem C10_wsm_language_jp_witness :
    read_summary_data "b.wsm" sampleWsmStream = .ok (sampleWsmRecord, []) ∧
    sampleWsmRecord.languageCode = "jp" := by
  constructor
  · rfl
  · exact C10_wsm_language_jp "b.wsm" sampleWsmStream sampleWsmRecord [] (by rfl)

theorem pyDecodeStrict_error_known (name : String) (bs : List Nat) (e : PyErr)
    (hc : (codecOf name).isSome) (h : pyDecodeStrict name bs = .error e) :
    e = .unicodeDecodeError := by
  unfold pyDecodeStrict at h
  cases hco : codecOf name with
  | none => rw [hco] at hc; simp at hc
  | some c =>
    rw [hco] at h
    have h2 : (match codecDec c bs with
        | some cs => Except.ok (String.mk cs)
        | none => Except.error PyErr.unicodeDecodeError) = Except.error e := h
    cases hd : codecDec c bs with
    | some cs => rw [hd] at h2; cases h2
    | none =>
      rw [hd] at h2
      simp only [Except.error.injEq] at h2
      exact h2.symm

theorem decodeChain_ok_of_known (enc : String) (raw : List Nat)
    (hc : (codecOf enc).isSome) : isOkB (decodeChain enc raw) = true := by
  unfold decodeChain
  cases h1 : pyDecodeStrict enc raw with
  | ok s => rfl
  | error e =>
    have he : e = .unicodeDecodeError := pyDecodeStrict_error_known enc raw e hc h1
    subst he
    cases h2 : pyDecodeStrict "CP932" raw with
    | ok s => rfl
    | error e2 =>
      have he2 : e2 = .unicodeDecodeError :=
        pyDecodeStrict_error_known "CP932" raw e2 (by decide) h2
      subst he2
      rfl

theorem decodeChain_lookup (enc : String) (raw : List Nat)
    (hc : codecOf enc = none) : decodeChain enc raw = .error .lookupError := by
  have h1 : pyDecodeStrict enc raw = .error .lookupError := by
    unfold pyDecodeStrict
    rw [hc]
  unfold decodeChain
  rw [h1]

/-- C4 counterexample: a buffer whose header declares the unknown encoding
name `bogus` makes `read_with_encoding` raise `LookupError` — the function
is not total and an unknown declared encoding IS fatal. -/
theorem C4_counterexample :
    read_with_encoding ("<?xml encoding=\"bogus\"?>".data.map Char.toNat) =
      .error .lookupError := by
  apply decodeChain_lookup
  decide

/-- C4 (amended): `read_with_encoding` is total whenever the declared (or
default UTF-8) encoding is KNOWN to the codec registry: the declared
strict decode, on `UnicodeDecodeError` a CP932 retry, and on another
`UnicodeDecodeError` a UTF-8 force-decode that DROPS invalid bytes
(`errors="ignore"`, not replacement characters), which never fails.  A
declared encoding name the registry does not know raises `LookupError`,
which is fatal. -/
theorem C4_read_with_encoding_amended :
    (∀ raw : List Nat, (codecOf (declaredEncoding raw)).isSome →
      isOkB (read_with_encoding raw) = true) ∧
    (∀ raw : List Nat, searchEnc (asciiIgnore (raw.take 100)) = none →
      isOkB (read_with_encoding raw) = true) ∧
    (∀ raw : List Nat, codecOf (declaredEncoding raw) = none →
      read_with_encoding raw = .error .lookupError) ∧
    (∀ raw : List Nat,
      pyDecodeStrict (declaredEncoding raw) raw = .error .unicodeDecodeError →
      pyDecodeStrict "CP932" raw = .error .unicodeDecodeError →
      read_with_encoding raw = .ok (String.mk (utf8Sub [] raw))) := by
  refine ⟨?_, ?_, ?_, ?_⟩
  · intro raw hc
    exact decodeChain_ok_of_known _ raw hc
  · intro raw hnone
    apply decodeChain_ok_of_known
    unfold declaredEncoding
    rw [hnone]
    decide
  · intro raw hc
    exact decodeChain_lookup _ raw hc
  · intro raw h1 h2
    unfold read_with_encoding decodeChain
    rw [h1, h2]

/-- Witness for C4 (amended): a buffer declaring `utf-8` decodes; a buffer
that is invalid UTF-8 and invalid CP932 falls through to the dropping
force-decode and still succeeds. -/
theorem C4_read_with_encoding_amended_witness :
    isOkB (read_with_encoding ("<?xml encoding=\"utf-8\"?><a/>".data.map Char.toNat)) = true ∧
    read_with_encoding [0xFF] = .ok "" ∧
    isOkB (read_with_encoding [0xFF]) = true := by
  refine ⟨C4_read_with_encoding_amended.1 _ (by decide), ?_, ?_⟩
  · have h := C4_read_with_encoding_amended.2.2.2 [0xFF] (by decide) (by decide)
    rw [h]
    decide
  · exact C4_read_with_encoding_amended.2.1 [0xFF] (by decide)

/-- C6 counterexample: a buffer starting with the UTF-8 BOM bytes
`EF BB BF` (and no declaration) is decoded by `read_with_encoding` as
plain UTF-8 with the BOM NOT stripped — the returned text starts with
U+FEFF. -/
theorem C6_counterexample :
    read_with_encoding ([0xEF, 0xBB, 0xBF] ++ "<a/>".data.map Char.toNat) =
      .ok (String.mk ('﻿' :: "<a/>".data)) ∧
    (String.mk ('﻿' :: "<a/>".data)).data.head? = some '﻿' := by
  exact ⟨by decide, by decide⟩

/-- C6 (amended): `read_with_encoding` performs no byte-order-mark
sniffing.  A buffer starting with the UTF-8 BOM and carrying no encoding
declaration is decoded with plain UTF-8 semantics: the BOM stays in the
output as a leading U+FEFF.  And a header declaration always takes
priority — when the declared encoding strictly decodes the buffer (BOM
bytes included), its result is returned, BOM or no BOM. -/
theorem C6_read_with_encoding_amended :
    (∀ (bs : List Nat) (cs : List Char),
      searchEnc (asciiIgnore ((0xEF :: 0xBB :: 0xBF :: bs).take 100)) = none →
      utf8Strict bs = some cs →
      read_with_encoding (0xEF :: 0xBB :: 0xBF :: bs) =
        .ok (String.mk ('﻿' :: cs))) ∧
    (∀ (raw : List Nat) (encName : List Char) (s : String),
      searchEnc (asciiIgnore (raw.take 100)) = some encName →
      pyDecodeStrict (String.mk encName) raw = .ok s →
      read_with_encoding raw = .ok s) := by
  constructor
  · intro bs cs h1 h2
    have hdecl : declaredEncoding (0xEF :: 0xBB :: 0xBF :: bs) = "utf-8" := by
      unfold declaredEncoding
      rw [h1]
    have hcodec : codecOf "utf-8" = some Codec.utf8 := by decide
    have hstep : utf8Strict (0xEF :: 0xBB :: 0xBF :: bs) =
        (utf8Strict bs).map ('﻿' :: ·) := rfl
    have hpd : pyDecodeStrict "utf-8" (0xEF :: 0xBB :: 0xBF :: bs) =
        .ok (String.mk ('﻿' :: cs)) := by
      unfold pyDecodeStrict
      rw [hcodec]
      have hdec : codecDec Codec.utf8 (0xEF :: 0xBB :: 0xBF :: bs) =
          some ('﻿' :: cs) := by
        show utf8Strict (0xEF :: 0xBB :: 0xBF :: bs) = some ('﻿' :: cs)
        rw [hstep, h2]
        rfl
      show (match codecDec Codec.utf8 (0xEF :: 0xBB :: 0xBF :: bs) with
        | some cs2 => Except.ok (String.mk cs2)
        | none => Except.error PyErr.unicodeDecodeError) =
          Except.ok (String.mk ('﻿' :: cs))
      rw [hdec]
    unfold read_with_encoding decodeChain
    rw [hdecl, hpd]
  · intro raw encName s h1 h2
    have hdecl : declaredEncoding raw = String.mk encName := by
      unfold declaredEncoding
      rw [h1]
    unfold read_with_encoding decodeChain
    rw [hdecl, h2]

/-- Witness for C6 (amended) at a concrete BOM buffer and a concrete
declared-encoding buffer. -/
theorem C6_read_with_encoding_amended_witness :
    read_with_encoding (0xEF :: 0xBB :: 0xBF :: "<a/>".data.map Char.toNat) =
      .ok (String.mk ('﻿' :: "<a/>".data)) ∧
    read_with_encoding ("<?xml encoding=\"ascii\"?>".data.map Char.toNat) =
      .ok "<?xml encoding=\"ascii\"?>" := by
  constructor
  · have h := C6_read_with_encoding_amended.1 ("<a/>".data.map Char.toNat)
      "<a/>".data (by decide) (by decide)
    exact h
  · exact C6_read_with_encoding_amended.2 _ "ascii".data _ (by decide) (by decide)

theorem dget_map_self (d : Dict) (k : String) (v dflt : Val)
    (hm : dkeyMem d k = true) :
    dget (d.map (fun p => if p.1 == k then (k, v) else p)) k dflt = v := by
  induction d with
  | nil => simp [dkeyMem] at hm
  | cons p rest ih =>
    simp only [List.map_cons]
    by_cases hp : (p.1 == k) = true
    · rw [if_pos hp]
      simp [dget]
    · rw [if_neg hp]
      have hm2 : dkeyMem rest k = true := by
        simpa [dkeyMem, hp] using hm
      simp only [dget, if_neg hp]
      exact ih hm2

theorem dget_append_single (d : Dict) (k : String) (v dflt : Val)
    (hm : dkeyMem d k = false) :
    dget (d ++ [(k, v)]) k dflt = v := by
  induction d with
  | nil => simp [dget]
  | cons p rest ih =>
    rw [List.cons_append]
    have hp : ¬ (p.1 == k) = true := by
      simp [dkeyMem] at hm
      simp [hm.1]
    have hm2 : dkeyMem rest k = false := by
      simp [dkeyMem] at hm
      simp [hm.2]
    simp only [dget, if_neg hp]
    exact ih hm2

theorem dget_dset_self (d : Dict) (k : String) (v dflt : Val) :
    dget (dset d k v) k dflt = v := by
  unfold dset
  by_cases hm : dkeyMem d k = true
  · rw [if_pos hm]
    exact dget_map_self d k v dflt hm
  · rw [if_neg hm]
    exact dget_append_single d k v dflt (by simpa using hm)

theorem dget_map_other (d : Dict) (k k2 : String) (v dflt : Val)
    (h : (k == k2) = false) :
    dget (d.map (fun p => if p.1 == k then (k, v) else p)) k2 dflt =
      dget d k2 dflt := by
  induction d with
  | nil => rfl
  | cons p rest ih =>
    simp only [List.map_cons]
    by_cases hp : (p.1 == k) = true
    · have hpk : p.1 = k := by simpa using hp
      rw [if_pos hp]
      simp only [dget, h, hpk]
      simp only [Bool.false_eq_true, if_false]
      exact ih
    · rw [if_neg hp]
      by_cases hpp : (p.1 == k2) = true
      · simp only [dget, if_pos hpp]
      · simp only [dget, if_neg hpp]
        exact ih

theorem dget_append_other (d : Dict) (k k2 : String) (v dflt : Val)
    (h : (k == k2) = false) :
    dget (d ++ [(k, v)]) k2 dflt = dget d k2 dflt := by
  induction d with
  | nil => simp [dget, h]
  | cons p rest ih =>
    rw [List.cons_append]
    by_cases hp : (p.1 == k2) = true
    · simp only [dget, if_pos hp]
    · simp only [dget, if_neg hp]
      exact ih

theorem dget_dset_other (d : Dict) (k k2 : String) (v dflt : Val)
    (h : (k == k2) = false) :
    dget (dset d k v) k2 dflt = dget d k2 dflt := by
  unfold dset
  by_cases hm : dkeyMem d k = true
  · rw [if_pos hm]
    exact dget_map_other d k k2 v dflt h
  · rw [if_neg hm]
    exact dget_append_other d k k2 v dflt h

/-- C8 counterexample: a `.wsn` archive whose only entry is
`sub/Summary.xml` — the decoded name ends with `summary.xml`
case-insensitively, yet the resolver does NOT select it (it requires
case-insensitive EQUALITY with `summary.xml`), so the entry is never
parsed and the result record carries no `Name`. -/
theorem C8_counterexample :
    extract_info_wsn (fun _ => none) (fun _ => [("Name", Val.vstr "X")])
      (.withEntries [⟨"sub/Summary.xml", "<a/>".data.map Char.toNat, false⟩])
      "p.wsn" =
      .ok [("Version", Val.vstr "Py"), ("file_path", Val.vstr "p.wsn")] := by
  rfl

/-- C8 (amended): for a `.wsn` archive the resolver filters entries whose
raw name ends with `.xml` (case-insensitively), decodes their names, and
selects the first whose decoded name case-insensitively EQUALS
`summary.xml` (an entry such as `sub/Summary.xml` is not matched); the
selected entry is opened by its decoded name, run through encoding
detection and the XML field parser, and the resulting record's `Version`
is forced to `Py` (also when no entry matches). -/
theorem C8_wsn_summary_selection :
    (∀ (det : List Nat → Option String) (parseXml : String → Dict)
      (es : List ZipEntry) (ent : ZipEntry) (path xmlText : String),
      (wsnXmlNames det es).find?
          (fun f => pyLower f == "summary.xml") = some ent.rawName →
      es.find? (fun e => e.rawName == ent.rawName) = some ent →
      ent.encrypted = false →
      read_with_encoding ent.content = .ok xmlText →
      extract_info_wsn det parseXml (.withEntries es) path =
        .ok (dset (dset (parseXml xmlText) "Version" (.vstr "Py"))
          "file_path" (.vstr path))) ∧
    (∀ (det : List Nat → Option String) (parseXml : String → Dict)
      (es : List ZipEntry) (path : String),
      (wsnXmlNames det es).find?
          (fun f => pyLower f == "summary.xml") = none →
      extract_info_wsn det parseXml (.withEntries es) path =
        .ok (dset (dset ([] : Dict) "Version" (.vstr "Py"))
          "file_path" (.vstr path))) ∧
    (∀ (d : Dict) (path : String),
      dget (dset (dset d "Version" (.vstr "Py")) "file_path" (.vstr path))
        "Version" .vnone = .vstr "Py") := by
  refine ⟨?_, ?_, ?_⟩
  · intro det parseXml es ent path xmlText h1 h2 h3 h4
    show extract_info_wsn_entries det parseXml es path = _
    unfold extract_info_wsn_entries
    rw [h1]
    simp only []
    rw [h2]
    simp only [h3]
    show (read_with_encoding ent.content >>= fun xmlData =>
      pure (dset (dset (parseXml xmlData) "Version" (.vstr "Py"))
        "file_path" (.vstr path))) = _
    rw [h4]
    rfl
  · intro det parseXml es path h1
    show extract_info_wsn_entries det parseXml es path = _
    unfold extract_info_wsn_entries
    rw [h1]
  · intro d path
    rw [dget_dset_other _ _ _ _ _ (by decide), dget_dset_self]

/-- Witness for C8 (amended): an archive whose entry `Summary.XML`
matches by case-insensitive equality and is parsed, with `Version` forced
to `Py`. -/
theorem C8_wsn_summary_selection_witness :
    extract_info_wsn (fun _ => none) (fun s => [("Name", Val.vstr s)])
      (.withEntries [⟨"Summary.XML", "<a/>".data.map Char.toNat, false⟩])
      "q.wsn" =
      .ok (dset (dset [("Name", Val.vstr "<a/>")] "Version" (.vstr "Py"))
        "file_path" (.vstr "q.wsn")) ∧
    dget (dset (dset [("Name", Val.vstr "<a/>")] "Version" (.vstr "Py"))
      "file_path" (.vstr "q.wsn")) "Version" .vnone = .vstr "Py" := by
  constructor
  · exact C8_wsn_summary_selection.1 (fun _ => none) (fun s => [("Name", Val.vstr s)])
      [⟨"Summary.XML", "<a/>".data.map Char.toNat, false⟩]
      ⟨"Summary.XML", "<a/>".data.map Char.toNat, false⟩
      "q.wsn" "<a/>" (by decide) rfl rfl (by decide)
  · exact C8_wsn_summary_selection.2.2 [("Name", Val.vstr "<a/>")] "q.wsn"

theorem tryJp_none (dec : String → List Nat → Except PyErr String)
    (raw : List Nat) :
    ∀ cands : List String,
      (∀ e2 ∈ cands, ∀ er, dec e2 raw = .error er → er = .unicodeDecodeError) →
      (∀ e2 ∈ cands, ∀ t, dec e2 raw = .ok t → containsJapanese t = false) →
      tryJpEncodings dec raw cands = .ok none := by
  intro cands
  induction cands with
  | nil => intro _ _; rfl
  | cons enc rest ih =>
    intro herr hok
    unfold tryJpEncodings
    cases hd : dec enc raw with
    | ok t =>
      simp only []
      rw [hok enc (by simp) t hd]
      simp only [Bool.false_eq_true, if_false]
      exact ih (fun e2 hm => herr e2 (by simp [hm])) (fun e2 hm => hok e2 (by simp [hm]))
    | error er =>
      have her : er = .unicodeDecodeError := herr enc (by simp) er hd
      subst her
      simp only []
      exact ih (fun e2 hm => herr e2 (by simp [hm])) (fun e2 hm => hok e2 (by simp [hm]))

theorem tryJp_first (dec : String → List Nat → Except PyErr String)
    (raw : List Nat) :
    ∀ (pre : List String) (enc : String) (post : List String),
      (∀ e2 ∈ pre, ∀ er, dec e2 raw = .error er → er = .unicodeDecodeError) →
      (∀ e2 ∈ pre, ∀ t, dec e2 raw = .ok t → containsJapanese t = false) →
      ∀ t, dec enc raw = .ok t → containsJapanese t = true →
      tryJpEncodings dec raw (pre ++ enc :: post) = .ok (some enc) := by
  intro pre
  induction pre with
  | nil =>
    intro enc post _ _ t hd hj
    rw [List.nil_append]
    unfold tryJpEncodings
    rw [hd]
    simp only []
    rw [hj]
    simp only [if_true]
  | cons e2 rest ih =>
    intro enc post herr hok t hd hj
    rw [List.cons_append]
    unfold tryJpEncodings
    cases hd2 : dec e2 raw with
    | ok t2 =>
      simp only []
      rw [hok e2 (by simp) t2 hd2]
      simp only [Bool.false_eq_true, if_false]
      exact ih enc post (fun x hm => herr x (by simp [hm]))
        (fun x hm => hok x (by simp [hm])) t hd hj
    | error er =>
      have her : er = .unicodeDecodeError := herr e2 (by simp) er hd2
      subst her
      simp only []
      exact ih enc post (fun x hm => herr x (by simp [hm]))
        (fun x hm => hok x (by simp [hm])) t hd hj

theorem tryJp_mem_selectable (dec : String → List Nat → Except PyErr String)
    (raw : List Nat) :
    ∀ (cands : List String) (enc : String),
      tryJpEncodings dec raw cands = .ok (some enc) →
      enc ∈ cands ∧ ∃ t, dec enc raw = .ok t ∧ containsJapanese t = true := by
  intro cands
  induction cands with
  | nil => intro enc h; cases h
  | cons e rest ih =>
    intro enc h
    unfold tryJpEncodings at h
    cases hd : dec e raw with
    | ok t =>
      rw [hd] at h
      simp only [] at h
      by_cases hj : containsJapanese t = true
      · rw [hj] at h
        simp only [if_true, Except.ok.injEq, Option.some.injEq] at h
        subst h
        exact ⟨by simp, t, hd, hj⟩
      · rw [show containsJapanese t = false by simpa using hj] at h
        simp only [Bool.false_eq_true, if_false] at h
        obtain ⟨hm, hsel⟩ := ih enc h
        exact ⟨by simp [hm], hsel⟩
    | error er =>
      rw [hd] at h
      cases er with
      | unicodeDecodeError =>
        obtain ⟨hm, hsel⟩ := ih enc h
        exact ⟨by simp [hm], hsel⟩
      | truncatedRecord => exact Except.noConfusion h
      | unicodeEncodeError => exact Except.noConfusion h
      | lookupError => exact Except.noConfusion h
      | keyError => exact Except.noConfusion h
      | runtimeError => exact Except.noConfusion h
      | badZipFile => exact Except.noConfusion h

/-- C5: the archive entry-name codepage resolver
(`JapaneseZipHandler.detect_filename_encoding`) reinterprets the sampled
entry name as its stored raw bytes and tries the candidate legacy
codepages `cp932`, `shift_jis`, `euc_jp` in that fixed priority order,
selecting the first candidate whose decoded text contains at least one
code point in the Hiragana, Katakana, or CJK-ideograph ranges; a candidate
whose decoded text contains no such code point is never selected.  The
theorem quantifies over the codec behaviour `dec`; the hypothesis that
strict decodes fail only with `UnicodeDecodeError` is true of the real
codecs. -/
theorem C5_detect_encoding_selection :
    ∀ (dec : String → List Nat → Except PyErr String)
      (entries : List JZEntry) (e : JZEntry),
      (entries.any (·.flagUtf8)) = false →
      entries.head? = some e →
      (∀ enc ∈ jpCodecNames, ∀ er, dec enc e.rawNameBytes = .error er →
        er = .unicodeDecodeError) →
      ((∀ pre enc post, jpCodecNames = pre ++ enc :: post →
        (∀ e2 ∈ pre, ∀ t, dec e2 e.rawNameBytes = .ok t →
          containsJapanese t = false) →
        ∀ t, dec enc e.rawNameBytes = .ok t → containsJapanese t = true →
        detect_filename_encoding dec entries = enc) ∧
      ((∀ enc ∈ jpCodecNames, ∀ t, dec enc e.rawNameBytes = .ok t →
          containsJapanese t = false) →
        detect_filename_encoding dec entries = "cp437") ∧
      (∀ enc, detect_filename_encoding dec entries = enc →
        enc ∈ jpCodecNames →
        ∃ t, dec enc e.rawNameBytes = .ok t ∧ containsJapanese t = true)) := by
  intro dec entries e hflag hhead herr
  have hbase : detect_filename_encoding dec entries =
      (match tryJpEncodings dec e.rawNameBytes jpCodecNames with
        | .ok (some enc) => enc
        | .ok none => "cp437"
        | .error _ => "cp437") := by
    unfold detect_filename_encoding
    rw [hflag, hhead]
    rfl
  refine ⟨?_, ?_, ?_⟩
  · intro pre enc post hsplit hpre t hd hj
    have hpreerr : ∀ e2 ∈ pre, ∀ er, dec e2 e.rawNameBytes = .error er →
        er = .unicodeDecodeError := by
      intro e2 hm er h2
      exact herr e2 (by rw [hsplit]; simp [hm]) er h2
    rw [hbase, hsplit, tryJp_first dec e.rawNameBytes pre enc post hpreerr hpre t hd hj]
  · intro hok
    rw [hbase, tryJp_none dec e.rawNameBytes jpCodecNames herr hok]
  · intro enc hdet hmem
    rw [hbase] at hdet
    cases htry : tryJpEncodings dec e.rawNameBytes jpCodecNames with
    | ok o =>
      cases o with
      | some enc2 =>
        rw [htry] at hdet
        simp only [] at hdet
        subst hdet
        exact (tryJp_mem_selectable dec e.rawNameBytes jpCodecNames enc2 htry).2
      | none =>
        rw [htry] at hdet
        simp only [] at hdet
        subst hdet
        exact absurd hmem (by decide)
    | error er =>
      rw [htry] at hdet
      simp only [] at hdet
      subst hdet
      exact absurd hmem (by decide)

/-- Witness for C5: raw name bytes `82 A0` (the hiragana A) select
`cp932`, the first candidate, under the concrete codec model. -/
theorem C5_detect_encoding_selection_witness :
    detect_filename_encoding (fun enc bs => pyDecodeStrict enc bs)
      [⟨false, [0x82, 0xA0]⟩] = "cp932" := by
  have herr : ∀ enc ∈ jpCodecNames, ∀ er,
      pyDecodeStrict enc [0x82, 0xA0] = .error er →
      er = PyErr.unicodeDecodeError := by
    intro enc hm er h
    simp only [jpCodecNames, List.mem_cons, List.not_mem_nil, or_false] at hm
    rcases hm with rfl | rfl | rfl
    · rw [show pyDecodeStrict "cp932" [0x82, 0xA0] = .ok "あ" from by decide] at h
      cases h
    · rw [show pyDecodeStrict "shift_jis" [0x82, 0xA0] = .ok "あ" from by decide] at h
      cases h
    · rw [show pyDecodeStrict "euc_jp" [0x82, 0xA0] =
          .error .unicodeDecodeError from by decide] at h
      simp only [Except.error.injEq] at h
      exact h.symm
  have h := (C5_detect_encoding_selection (fun enc bs => pyDecodeStrict enc bs)
    [⟨false, [0x82, 0xA0]⟩] ⟨false, [0x82, 0xA0]⟩ (by rfl) (by rfl) herr).1
    [] "cp932" ["shift_jis", "euc_jp"] (by decide) (by simp) "あ" (by decide) (by decide)
  exact h

theorem tryLoop_encode_fail (name : String)
    (h : latin1EncodeStrict name.data = .error .unicodeEncodeError) :
    ∀ cands : List String, tryEncodingsLoop name cands = .ok none := by
  intro cands
  induction cands with
  | nil => rfl
  | cons enc rest ih =>
    unfold tryEncodingsLoop
    rw [h]
    exact ih

/-- C9: `decode_filename` is total at its public interface — for every
input name and every behaviour of the `chardet` detector it returns a
string and never propagates an exception: a Latin-1-encodable name is
decoded by the first candidate (UTF-8 with replacement, which cannot
fail), and otherwise the detector's encoding is tried; whenever every
decoding attempt fails (the fixed candidates via `UnicodeEncodeError`,
and the detector returning nothing or its encoding failing), the original
name is returned unchanged. -/
theorem C9_decode_filename_total :
    ∀ (det : List Nat → Option String) (name : String),
      (∀ bs, latin1EncodeStrict name.data = .ok bs →
        decode_filename det name = String.mk (utf8Sub [replChar] bs)) ∧
      (latin1EncodeStrict name.data = .error .unicodeEncodeError →
        det (latin1EncodeIgnore name.data) = none →
        decode_filename det name = name) ∧
      (∀ d s, latin1EncodeStrict name.data = .error .unicodeEncodeError →
        det (latin1EncodeIgnore name.data) = some d →
        pyDecodeReplace d (latin1EncodeIgnore name.data) = .ok s →
        decode_filename det name = s) ∧
      (∀ d e, latin1EncodeStrict name.data = .error .unicodeEncodeError →
        det (latin1EncodeIgnore name.data) = some d →
        pyDecodeReplace d (latin1EncodeIgnore name.data) = .error e →
        decode_filename det name = name) := by
  intro det name
  refine ⟨?_, ?_, ?_, ?_⟩
  · intro bs h
    have hloop : tryEncodingsLoop name ["utf-8", "shift_jis", "euc-jp", "cp932"] =
        .ok (some (String.mk (utf8Sub [replChar] bs))) := by
      unfold tryEncodingsLoop
      rw [h]
      have hpd : pyDecodeReplace "utf-8" bs =
          .ok (String.mk (utf8Sub [replChar] bs)) := by
        unfold pyDecodeReplace
        rw [show codecOf "utf-8" = some Codec.utf8 from by decide]
        rfl
      simp only []
      rw [hpd]
    unfold decode_filename
    rw [hloop]
  · intro h hdet
    unfold decode_filename
    rw [tryLoop_encode_fail name h]
    simp only []
    rw [hdet]
  · intro d s h hdet hpd
    unfold decode_filename
    rw [tryLoop_encode_fail name h]
    simp only []
    rw [hdet]
    simp only []
    rw [hpd]
  · intro d e h hdet hpd
    unfold decode_filename
    rw [tryLoop_encode_fail name h]
    simp only []
    rw [hdet]
    simp only []
    rw [hpd]
    cases e <;> rfl

/-- Witness for C9: an ASCII name round-trips through the first
candidate; a name with characters above U+00FF and a failing detector is
returned unchanged. -/
theorem C9_decode_filename_total_witness :
    decode_filename (fun _ => none) "abc.wsm" = "abc.wsm" ∧
    decode_filename (fun _ => none) "ほげ" = "ほげ" := by
  constructor
  · have h := (C9_decode_filename_total (fun _ => none) "abc.wsm").1
      ("abc.wsm".data.map Char.toNat) (by decide)
    rw [h]
    decide
  · exact (C9_decode_filename_total (fun _ => none) "ほげ").2.1 (by decide) rfl

/-- A reader only consumes a prefix: a successful run determines a
consumed count `c`, and (when the stream was not exhausted) the run is
local — on the consumed prefix extended by anything else it returns the
same value with the extension as leftover. -/
def PLocal {α : Type} (p : StreamM α) : Prop :=
  ∀ s r rest, p s = .ok (r, rest) →
    ∃ c, c ≤ s.length ∧ rest = s.drop c ∧
      (c < s.length → ∀ ext, p (s.take c ++ ext) = .ok (r, ext))

/-- Cutting a successful run short anywhere inside its consumed bytes
either fails with the truncation error or succeeds consuming the whole
cut stream (a payload read absorbing what is left). -/
def PWeak {α : Type} (p : StreamM α) : Prop :=
  ∀ s r rest k, p s = .ok (r, rest) → k < s.length - rest.length →
    p (s.take k) = .error .truncatedRecord ∨ ∃ r2, p (s.take k) = .ok (r2, [])

/-- The only error a reader raises is the truncation error. -/
def PErr {α : Type} (p : StreamM α) : Prop :=
  ∀ s e, p s = .error e → e = .truncatedRecord

structure PSpec {α : Type} (p : StreamM α) : Prop where
  loc : PLocal p
  weak : PWeak p
  err : PErr p

/-- Cutting a successful run short anywhere inside its consumed bytes
always fails with the truncation error. -/
def PStrict {α : Type} (p : StreamM α) : Prop :=
  ∀ s r rest k, p s = .ok (r, rest) → k < s.length - rest.length →
    p (s.take k) = .error .truncatedRecord

/-- The reader fails on the empty stream. -/
def PFailsEmpty {α : Type} (p : StreamM α) : Prop :=
  p [] = .error .truncatedRecord

theorem pspec_pure {α : Type} (a : α) : PSpec (pure a : StreamM α) := by
  refine ⟨?_, ?_, ?_⟩
  · intro s r rest h
    rw [StreamM.pure_def] at h
    injection h with h1
    injection h1 with hr hrest
    exact ⟨0, Nat.zero_le _, by rw [← hrest]; rfl,
      fun _ ext => by rw [← hr]; rfl⟩
  · intro s r rest k h hk
    rw [StreamM.pure_def] at h
    injection h with h1
    injection h1 with hr hrest
    rw [← hrest] at hk
    omega
  · intro s e h
    rw [StreamM.pure_def] at h
    cases h

theorem pspec_bind {α β : Type} (p : StreamM α) (f : α → StreamM β)
    (hp : PSpec p) (hf : ∀ a, PSpec (f a)) : PSpec (p >>= f) := by
  refine ⟨?_, ?_, ?_⟩
  · intro s r2 rest2 h
    rw [StreamM.bind_def] at h
    cases hps : p s with
    | error e => rw [hps] at h; cases h
    | ok v =>
      obtain ⟨r1, rest1⟩ := v
      rw [hps] at h
      obtain ⟨c1, hc1, hrest1, hloc1⟩ := hp.loc s r1 rest1 hps
      obtain ⟨c2, hc2, hrest2, hloc2⟩ := (hf r1).loc rest1 r2 rest2 h
      have hr1len : rest1.length = s.length - c1 := by
        rw [hrest1, List.length_drop]
      refine ⟨c1 + c2, by omega, ?_, ?_⟩
      · rw [hrest2, hrest1, List.drop_drop, Nat.add_comm]
      · intro hlt ext
        have hc1lt : c1 < s.length := by omega
        have hc2lt : c2 < rest1.length := by omega
        have htake : s.take (c1 + c2) = s.take c1 ++ (s.drop c1).take c2 :=
          List.take_add s c1 c2
        rw [StreamM.bind_def, htake, List.append_assoc,
          hloc1 hc1lt ((s.drop c1).take c2 ++ ext)]
        have := hloc2 (by rw [hrest1] at hc2lt ⊢; exact hc2lt) ext
        rw [hrest1] at this
        exact this
  · intro s r2 rest2 k h hk
    rw [StreamM.bind_def] at h
    cases hps : p s with
    | error e => rw [hps] at h; cases h
    | ok v =>
      obtain ⟨r1, rest1⟩ := v
      rw [hps] at h
      obtain ⟨c1, hc1, hrest1, hloc1⟩ := hp.loc s r1 rest1 hps
      obtain ⟨c2, hc2, hrest2, hloc2⟩ := (hf r1).loc rest1 r2 rest2 h
      have hr1len : rest1.length = s.length - c1 := by
        rw [hrest1, List.length_drop]
      have hr2len : rest2.length = s.length - (c1 + c2) := by
        rw [hrest2, List.length_drop, hr1len]
        omega
      have hk2 : k < c1 + c2 := by omega
      by_cases hkc1 : k < c1
      · have hcons : k < s.length - rest1.length := by omega
        rcases hp.weak s r1 rest1 k hps hcons with herr | ⟨r3, hok3⟩
        · left
          rw [StreamM.bind_def, herr]
        · cases hfe : f r3 [] with
          | error e2 =>
            left
            have he2 : e2 = PyErr.truncatedRecord := (hf r3).err [] e2 hfe
            rw [StreamM.bind_def, hok3]
            simp only []
            rw [hfe, he2]
          | ok v2 =>
            obtain ⟨r4, rest4⟩ := v2
            obtain ⟨c4, hc4, hrest4, _⟩ := (hf r3).loc [] r4 rest4 hfe
            have hrest4e : rest4 = [] := by rw [hrest4]; simp
            right
            refine ⟨r4, ?_⟩
            rw [StreamM.bind_def, hok3]
            simp only []
            rw [hfe, hrest4e]
      · have hc1lt : c1 < s.length := by omega
        have htk : s.take k = s.take c1 ++ (s.drop c1).take (k - c1) := by
          have h0 := List.take_add s c1 (k - c1)
          rw [show c1 + (k - c1) = k by omega] at h0
          exact h0
        have hrun : p (s.take k) = .ok (r1, (s.drop c1).take (k - c1)) := by
          rw [htk]
          exact hloc1 hc1lt _
        have hkf : k - c1 < rest1.length - rest2.length := by omega
        rcases (hf r1).weak rest1 r2 rest2 (k - c1) h hkf with herr | ⟨r3, hok3⟩
        · left
          rw [StreamM.bind_def, hrun]
          simp only []
          rw [hrest1] at herr
          exact herr
        · right
          refine ⟨r3, ?_⟩
          rw [StreamM.bind_def, hrun]
          simp only []
          rw [hrest1] at hok3
          exact hok3
  · intro s e h
    rw [StreamM.bind_def] at h
    cases hps : p s with
    | error e2 =>
      rw [hps] at h
      injection h with h1
      rw [← h1]
      exact hp.err s e2 hps
    | ok v =>
      rw [hps] at h
      exact (hf v.1).err v.2 e h

theorem pspec_fixedRead (n : Nat) : PSpec (fixedRead n) := by
  have heq : ∀ s : List Nat, fixedRead n s =
      if n ≤ s.length then .ok (s.take n, s.drop n)
      else .error .truncatedRecord := by
    intro s
    unfold fixedRead
    by_cases h : n ≤ s.length
    · rw [if_pos (by simp [List.length_take]; omega), if_pos h]
    · rw [if_neg (by simp [List.length_take]; omega), if_neg h]
  refine ⟨?_, ?_, ?_⟩
  · intro s r rest h
    rw [heq] at h
    by_cases hn : n ≤ s.length
    · rw [if_pos hn] at h
      injection h with h1
      injection h1 with hr hrest
      refine ⟨n, hn, hrest.symm, ?_⟩
      intro hlt ext
      have hl1 : (s.take n).length = n := by
        simp [List.length_take]; omega
      rw [heq, if_pos (by simp [hl1])]
      rw [List.take_left' hl1, List.drop_left' hl1, ← hr]
    · rw [if_neg hn] at h; cases h
  · intro s r rest k h hk
    left
    rw [heq] at h ⊢
    by_cases hn : n ≤ s.length
    · rw [if_pos hn] at h
      injection h with h1
      injection h1 with hr hrest
      rw [← hrest, List.length_drop] at hk
      rw [if_neg (by simp [List.length_take]; omega)]
    · rw [if_neg hn] at h; cases h
  · intro s e h
    rw [heq] at h
    by_cases hn : n ≤ s.length
    · rw [if_pos hn] at h; cases h
    · rw [if_neg hn] at h
      injection h with h1
      exact h1.symm

theorem pspec_cwread (n : Int) : PSpec (cwread n) := by
  refine ⟨?_, ?_, ?_⟩
  · intro s r rest h
    unfold cwread at h
    by_cases hn : n < 0
    · rw [if_pos hn] at h
      injection h with h1
      injection h1 with hr hrest
      refine ⟨s.length, Nat.le_refl _, by rw [← hrest]; simp, ?_⟩
      intro hlt
      omega
    · rw [if_neg hn] at h
      injection h with h1
      injection h1 with hr hrest
      refine ⟨min n.toNat s.length, Nat.min_le_right _ _, ?_, ?_⟩
      · rw [← hrest]
        rcases Nat.le_total n.toNat s.length with hle | hle
        · rw [Nat.min_eq_left hle]
        · rw [Nat.min_eq_right hle, List.drop_eq_nil_of_le hle,
            List.drop_eq_nil_of_le (Nat.le_refl _)]
      · intro hlt ext
        have hlt2 : n.toNat < s.length := by omega
        rw [Nat.min_eq_left (by omega)]
        have hl1 : (s.take n.toNat).length = n.toNat := by
          simp [List.length_take]; omega
        unfold cwread
        rw [if_neg hn, List.take_left' hl1, List.drop_left' hl1, ← hr]
  · intro s r rest k h hk
    right
    unfold cwread at h ⊢
    by_cases hn : n < 0
    · rw [if_pos hn] at h ⊢
      exact ⟨s.take k, rfl⟩
    · rw [if_neg hn] at h ⊢
      injection h with h1
      injection h1 with hr hrest
      rw [← hrest, List.length_drop] at hk
      refine ⟨(s.take k).take n.toNat, ?_⟩
      have hdropnil : List.drop n.toNat (s.take k) = [] :=
        List.drop_eq_nil_of_le (by simp [List.length_take]; omega)
      rw [hdropnil]
  · intro s e h
    unfold cwread at h
    by_cases hn : n < 0
    · rw [if_pos hn] at h; cases h
    · rw [if_neg hn] at h; cases h

theorem fixedRead_eq (n : Nat) (s : List Nat) :
    fixedRead n s = if n ≤ s.length then .ok (s.take n, s.drop n)
      else .error .truncatedRecord := by
  unfold fixedRead
  by_cases h : n ≤ s.length
  · rw [if_pos (by simp [List.length_take]; omega), if_pos h]
  · rw [if_neg (by simp [List.length_take]; omega), if_neg h]

theorem pspec_byte : PSpec byteM := by
  unfold byteM
  exact pspec_bind _ _ (pspec_fixedRead 1) (fun a => pspec_pure _)

theorem pspec_dword : PSpec dwordM := by
  unfold dwordM
  exact pspec_bind _ _ (pspec_fixedRead 4) (fun a => pspec_pure _)

theorem pspec_boolean : PSpec booleanM := by
  unfold booleanM
  exact pspec_bind _ _ pspec_byte (fun a => pspec_pure _)

theorem pspec_rawstring : PSpec rawstringM := by
  unfold rawstringM
  refine pspec_bind _ _ pspec_dword (fun n => ?_)
  by_cases h : n ≠ 0
  · rw [if_pos h]
    exact pspec_bind _ _ (pspec_cwread n) (fun bs => pspec_pure _)
  · rw [if_neg h]
    exact pspec_pure _

theorem pspec_string (m : Bool) : PSpec (stringM m) := by
  unfold stringM
  exact pspec_bind _ _ pspec_rawstring (fun s => pspec_pure _)

theorem pspec_image : PSpec imageM := by
  unfold imageM
  refine pspec_bind _ _ pspec_dword (fun n => ?_)
  by_cases h : n ≠ 0
  · rw [if_pos h]
    exact pspec_bind _ _ (pspec_cwread n) (fun bs => pspec_pure _)
  · rw [if_neg h]
    exact pspec_pure _

theorem mreplicate_zeroEq {α : Type} (p : StreamM α) :
    mreplicate 0 p = pure [] := rfl

theorem mreplicate_succEq {α : Type} (k : Nat) (p : StreamM α) :
    mreplicate (k + 1) p =
      p >>= fun x => mreplicate k p >>= fun xs => pure (x :: xs) := by
  simp only [mreplicate]

theorem pspec_mreplicate {α : Type} (n : Nat) (p : StreamM α) (hp : PSpec p) :
    PSpec (mreplicate n p) := by
  induction n with
  | zero =>
    rw [mreplicate_zeroEq]
    exact pspec_pure _
  | succ k ih =>
    rw [mreplicate_succEq]
    exact pspec_bind _ _ hp (fun x => pspec_bind _ _ ih (fun xs => pspec_pure _))

theorem pspec_readStep : PSpec readStep := by
  unfold readStep
  exact pspec_bind _ _ (pspec_string false) (fun nm =>
    pspec_bind _ _ pspec_dword (fun df =>
      pspec_bind _ _ (pspec_mreplicate 10 _ (pspec_string false)) (fun vs =>
        pspec_pure _)))

theorem pspec_readFlag : PSpec readFlag := by
  unfold readFlag
  exact pspec_bind _ _ (pspec_string false) (fun nm =>
    pspec_bind _ _ pspec_boolean (fun df =>
      pspec_bind _ _ (pspec_mreplicate 2 _ (pspec_string false)) (fun vs =>
        pspec_pure _)))

theorem pspec_readLevels (v : Nat) : PSpec (readLevels v) := by
  unfold readLevels
  by_cases h : 0 < v
  · rw [if_pos h]
    exact pspec_bind _ _ pspec_dword (fun a =>
      pspec_bind _ _ pspec_dword (fun b => pspec_pure _))
  · rw [if_neg h]
    exact pspec_pure _

theorem pstrict_pure {α : Type} (a : α) : PStrict (pure a : StreamM α) := by
  intro s r rest k h hk
  rw [StreamM.pure_def] at h
  injection h with h1
  injection h1 with hr hrest
  rw [← hrest] at hk
  omega

theorem pstrict_fixedRead (n : Nat) : PStrict (fixedRead n) := by
  intro s r rest k h hk
  rw [fixedRead_eq] at h ⊢
  by_cases hn : n ≤ s.length
  · rw [if_pos hn] at h
    injection h with h1
    injection h1 with hr hrest
    rw [← hrest, List.length_drop] at hk
    rw [if_neg (by simp [List.length_take]; omega)]
  · rw [if_neg hn] at h
    cases h

theorem pstrict_bind_strict {α β : Type} (p : StreamM α) (f : α → StreamM β)
    (hp : PSpec p) (hpstr : PStrict p) (hf : ∀ a, PSpec (f a))
    (hfstr : ∀ a, PStrict (f a)) : PStrict (p >>= f) := by
  intro s r2 rest2 k h hk
  rw [StreamM.bind_def] at h
  cases hps : p s with
  | error e => rw [hps] at h; cases h
  | ok v =>
    obtain ⟨r1, rest1⟩ := v
    rw [hps] at h
    obtain ⟨c1, hc1, hrest1, hloc1⟩ := hp.loc s r1 rest1 hps
    obtain ⟨c2, hc2, hrest2, hloc2⟩ := (hf r1).loc rest1 r2 rest2 h
    have hr1len : rest1.length = s.length - c1 := by
      rw [hrest1, List.length_drop]
    have hr2len : rest2.length = s.length - (c1 + c2) := by
      rw [hrest2, List.length_drop, hr1len]
      omega
    have hk2 : k < c1 + c2 := by omega
    by_cases hkc1 : k < c1
    · have herr := hpstr s r1 rest1 k hps (by omega)
      rw [StreamM.bind_def, herr]
    · have hc1lt : c1 < s.length := by omega
      have htk : s.take k = s.take c1 ++ (s.drop c1).take (k - c1) := by
        have h0 := List.take_add s c1 (k - c1)
        rw [show c1 + (k - c1) = k by omega] at h0
        exact h0
      have hrun : p (s.take k) = .ok (r1, (s.drop c1).take (k - c1)) := by
        rw [htk]
        exact hloc1 hc1lt _
      have herr := hfstr r1 rest1 r2 rest2 (k - c1) h (by omega)
      rw [StreamM.bind_def, hrun]
      simp only []
      rw [hrest1] at herr
      exact herr

theorem pstrict_bind_weak {α β : Type} (p : StreamM α) (f : α → StreamM β)
    (hp : PSpec p) (hf : ∀ a, PSpec (f a)) (hfstr : ∀ a, PStrict (f a))
    (hfe : ∀ a, PFailsEmpty (f a)) : PStrict (p >>= f) := by
  intro s r2 rest2 k h hk
  rw [StreamM.bind_def] at h
  cases hps : p s with
  | error e => rw [hps] at h; cases h
  | ok v =>
    obtain ⟨r1, rest1⟩ := v
    rw [hps] at h
    obtain ⟨c1, hc1, hrest1, hloc1⟩ := hp.loc s r1 rest1 hps
    obtain ⟨c2, hc2, hrest2, hloc2⟩ := (hf r1).loc rest1 r2 rest2 h
    have hr1len : rest1.length = s.length - c1 := by
      rw [hrest1, List.length_drop]
    have hr2len : rest2.length = s.length - (c1 + c2) := by
      rw [hrest2, List.length_drop, hr1len]
      omega
    have hk2 : k < c1 + c2 := by omega
    by_cases hkc1 : k < c1
    · rcases hp.weak s r1 rest1 k hps (by omega) with herr | ⟨r3, hok3⟩
      · rw [StreamM.bind_def, herr]
      · rw [StreamM.bind_def, hok3]
        simp only []
        exact hfe r3
    · have hc1lt : c1 < s.length := by omega
      have htk : s.take k = s.take c1 ++ (s.drop c1).take (k - c1) := by
        have h0 := List.take_add s c1 (k - c1)
        rw [show c1 + (k - c1) = k by omega] at h0
        exact h0
      have hrun : p (s.take k) = .ok (r1, (s.drop c1).take (k - c1)) := by
        rw [htk]
        exact hloc1 hc1lt _
      have herr := hfstr r1 rest1 r2 rest2 (k - c1) h (by omega)
      rw [StreamM.bind_def, hrun]
      simp only []
      rw [hrest1] at herr
      exact herr

theorem pfailsEmpty_bind {α β : Type} (p : StreamM α) (f : α → StreamM β)
    (hp : PFailsEmpty p) : PFailsEmpty (p >>= f) := by
  unfold PFailsEmpty at hp ⊢
  rw [StreamM.bind_def, hp]

theorem pfailsEmpty_mrep_bind {α β : Type} (n : Nat) (p : StreamM α)
    (g : List α → StreamM β) (hp : PFailsEmpty p)
    (hg : ∀ xs, PFailsEmpty (g xs)) : PFailsEmpty (mreplicate n p >>= g) := by
  cases n with
  | zero =>
    unfold PFailsEmpty
    rw [mreplicate_zeroEq, StreamM.bind_def, StreamM.pure_def]
    exact hg []
  | succ k =>
    unfold PFailsEmpty
    rw [StreamM.bind_def, mreplicate_succEq, StreamM.bind_def, hp]

/-- The three reader facts the truncation argument composes. -/
structure PGood {α : Type} (p : StreamM α) : Prop where
  spec : PSpec p
  strict : PStrict p
  femp : PFailsEmpty p

theorem pgood_bind {α β : Type} (p : StreamM α) (f : α → StreamM β)
    (hp : PSpec p) (hpe : PFailsEmpty p) (hf : ∀ a, PGood (f a)) :
    PGood (p >>= f) := by
  refine ⟨pspec_bind p f hp (fun a => (hf a).spec), ?_, pfailsEmpty_bind p f hpe⟩
  exact pstrict_bind_weak p f hp (fun a => (hf a).spec) (fun a => (hf a).strict)
    (fun a => (hf a).femp)

theorem pgood_mrep_bind {α β : Type} (n : Nat) (p : StreamM α)
    (g : List α → StreamM β) (hp : PSpec p) (hpe : PFailsEmpty p)
    (hg : ∀ xs, PGood (g xs)) : PGood (mreplicate n p >>= g) := by
  refine ⟨pspec_bind _ g (pspec_mreplicate n p hp) (fun a => (hg a).spec), ?_, ?_⟩
  · exact pstrict_bind_weak _ g (pspec_mreplicate n p hp) (fun a => (hg a).spec)
      (fun a => (hg a).strict) (fun a => (hg a).femp)
  · exact pfailsEmpty_mrep_bind n p g hpe (fun xs => (hg xs).femp)

theorem pfe_dword : PFailsEmpty dwordM := rfl

theorem pfe_image : PFailsEmpty imageM := rfl

theorem pfe_string (m : Bool) : PFailsEmpty (stringM m) := rfl

theorem pfe_readStep : PFailsEmpty readStep := rfl

theorem pfe_readFlag : PFailsEmpty readFlag := rfl

theorem pstrict_dword : PStrict dwordM := by
  unfold dwordM
  exact pstrict_bind_strict _ _ (pspec_fixedRead 4) (pstrict_fixedRead 4)
    (fun a => pspec_pure _) (fun a => pstrict_pure _)

theorem pstrict_readLevels (v : Nat) : PStrict (readLevels v) := by
  unfold readLevels
  by_cases h : 0 < v
  · rw [if_pos h]
    exact pstrict_bind_strict _ _ pspec_dword pstrict_dword
      (fun a => pspec_bind _ _ pspec_dword (fun b => pspec_pure _))
      (fun a => pstrict_bind_strict _ _ pspec_dword pstrict_dword
        (fun b => pspec_pure _) (fun b => pstrict_pure _))
  · rw [if_neg h]
    exact pstrict_pure _

theorem pgood_trailer {β : Type} (version : Nat) (rec : Int × Int → β) :
    PGood (dwordM >>= fun _ => readLevels version >>= fun lv => pure (rec lv)) := by
  refine ⟨?_, ?_, ?_⟩
  · exact pspec_bind _ _ pspec_dword (fun a =>
      pspec_bind _ _ (pspec_readLevels version) (fun lv => pspec_pure _))
  · exact pstrict_bind_strict _ _ pspec_dword pstrict_dword
      (fun a => pspec_bind _ _ (pspec_readLevels version) (fun lv => pspec_pure _))
      (fun a => pstrict_bind_strict _ _ (pspec_readLevels version)
        (pstrict_readLevels version) (fun lv => pspec_pure _)
        (fun lv => pstrict_pure _))
  · exact pfailsEmpty_bind _ _ pfe_dword

theorem pgood_read_summary_data (fp : String) : PGood (read_summary_data fp) := by
  unfold read_summary_data
  refine pgood_bind _ _ pspec_image pfe_image (fun imageData => ?_)
  refine pgood_bind _ _ (pspec_string false) (pfe_string false) (fun name => ?_)
  refine pgood_bind _ _ (pspec_string false) (pfe_string false) (fun description => ?_)
  refine pgood_bind _ _ (pspec_string false) (pfe_string false) (fun author => ?_)
  refine pgood_bind _ _ (pspec_string true) (pfe_string true) (fun requiredCoupons => ?_)
  refine pgood_bind _ _ pspec_dword pfe_dword (fun requiredCouponsNum => ?_)
  refine pgood_bind _ _ pspec_dword pfe_dword (fun areaId => ?_)
  refine pgood_bind _ _ pspec_dword pfe_dword (fun stepsNum => ?_)
  refine pgood_mrep_bind _ _ _ pspec_readStep pfe_readStep (fun steps => ?_)
  refine pgood_bind _ _ pspec_dword pfe_dword (fun flagsNum => ?_)
  refine pgood_mrep_bind _ _ _ pspec_readFlag pfe_readFlag (fun flags => ?_)
  exact pgood_trailer _ _

theorem endsWith_wsm_not_wsn (p : String) (h : strEndsWith p ".wsm" = true) :
    strEndsWith p ".wsn" = false := by
  unfold strEndsWith at h ⊢
  have h4 : (".wsm" : String).data.reverse = ['m', 's', 'w', '.'] := by decide
  have h5 : (".wsn" : String).data.reverse = ['n', 's', 'w', '.'] := by decide
  rw [h4] at h
  rw [h5]
  cases hr : p.data.reverse with
  | nil =>
    rw [hr] at h
    exact Bool.noConfusion h
  | cons c cs =>
    rw [hr] at h
    have h2 : decide (('m' : Char) = c) = true := (Bool.and_eq_true _ _ ▸ h).1
    have hc : ('m' : Char) = c := of_decide_eq_true h2
    show (decide (('n' : Char) = c) && startsWithL ['s', 'w', '.'] cs) = false
    rw [← hc]
    have hd : decide (('n' : Char) = 'm') = false := by decide
    rw [hd, Bool.false_and]

/-- C2: a `.wsm` stream cut short anywhere inside the bytes a successful
decode consumes makes `read_summary_data` fail, and the only error the
reader raises is the truncation error; the `.wsm` branch of
`extract_info_from_scenario` catches it per file — but leaves the
EMPTY initial dict (no default record is substituted), so the scan drops
the failing file's record entirely while subsequent files in the same
scan are still processed. -/
theorem C2_truncation_amended (fp : String) :
    (∀ (s : List Nat) (r : SummaryData) (rest : List Nat) (k : Nat),
       read_summary_data fp s = .ok (r, rest) →
       k < s.length - rest.length →
       read_summary_data fp (s.take k) = .error .truncatedRecord) ∧
    (∀ (s : List Nat) (e : PyErr),
       read_summary_data fp s = .error e → e = .truncatedRecord) ∧
    (∀ (s : List Nat) (ap : String) (e : PyErr),
       read_summary_data fp s = .error e → extract_info_wsm s fp ap = []) ∧
    (∀ (det : List Nat → Option String) (px : String → Dict)
       (p : String) (t : Int) (s : List Nat) (rest : List FsEntry) (e : PyErr),
       strEndsWith p ".wsm" = true →
       read_summary_data p s = .error e →
       find_files_with_content det px (⟨p, t, .wsmFile s⟩ :: rest) =
         find_files_with_content det px rest) := by
  refine ⟨?_, ?_, ?_, ?_⟩
  · exact fun s r rest k h hk => (pgood_read_summary_data fp).strict s r rest k h hk
  · exact fun s e h => (pgood_read_summary_data fp).spec.err s e h
  · intro s ap e h
    unfold extract_info_wsm
    rw [h]
  · intro det px p t s rest e hwsm herr
    have hwsn := endsWith_wsm_not_wsn p hwsm
    have hext : extract_info_nonzip det px p (FsFile.wsmFile s) = .ok [] := by
      unfold extract_info_nonzip
      rw [hwsn, Bool.false_and, if_neg Bool.false_ne_true, hwsm, if_pos rfl]
      show Except.ok (extract_info_wsm s p p) = .ok []
      unfold extract_info_wsm
      rw [herr]
    have hone : scanOne det px ⟨p, t, FsFile.wsmFile s⟩ = .ok none := by
      show (do
        let d ← extract_info_nonzip det px p (FsFile.wsmFile s)
        pure (if d.isEmpty then none else some (mkFileData d p t)) :
          Except PyErr (Option Dict)) = .ok none
      rw [hext]
      rfl
    have h1 : scanPass1 det px (⟨p, t, FsFile.wsmFile s⟩ :: rest) =
        scanPass1 det px rest := by
      show (do
        let hd ← scanOne det px ⟨p, t, FsFile.wsmFile s⟩
        let tl ← scanPass1 det px rest
        pure (match hd with | some d => d :: tl | none => tl) :
          Except PyErr (List Dict)) = scanPass1 det px rest
      rw [hone]
      cases hsp : scanPass1 det px rest with
      | ok ds => rfl
      | error e2 => rfl
    have h2 : scanZips det px (⟨p, t, FsFile.wsmFile s⟩ :: rest) =
        scanZips det px rest := rfl
    unfold find_files_with_content
    rw [h1, h2]

/-- C2 counterexample: the first `.wsm` file is truncated (17 of its 40
bytes); the scan yields NO record for it — rather than the default record
the claim promises — while the second file is still processed. -/
theorem C2_counterexample :
    find_files_with_content (fun _ => none) (fun _ => [])
      [⟨"a.wsm", 3, .wsmFile (sampleWsmStream.take 17)⟩,
       ⟨"b.wsm", 0, .wsmFile sampleWsmStream⟩] =
      .ok [mkFileData
        (dset (wsmInfoDict sampleWsmRecord) "file_path" (.vstr "b.wsm"))
        "b.wsm" 0] := rfl

/-- C2 witness: the sample stream decodes in full, and its 17-byte prefix
fails with the truncation error. -/
theorem C2_truncation_amended_witness :
    read_summary_data "b.wsm" (sampleWsmStream.take 17) =
      .error PyErr.truncatedRecord :=
  (C2_truncation_amended "b.wsm").1 sampleWsmStream sampleWsmRecord [] 17
    rfl (by decide)

/-- C3: the `.wsn` branch converts a bad archive into the literal default
record, and an archive with no qualifying `summary.xml` entry yields the
bare forced record (`Version = 'Py'`, `file_path`) — both per file.  But
the deferred zip pass of `find_files_with_content` runs with no handler:
a bad `.zip` raises `BadZipFile` and a password-protected matching entry
raises `RuntimeError`, and either one propagates out of
`find_files_with_content` and aborts the whole multi-file scan. -/
theorem C3_error_containment_amended :
    (∀ (det : List Nat → Option String) (px : String → Dict) (p : String),
       strEndsWith p ".wsn" = true → p.data.contains '!' = false →
       extract_info_nonzip det px p (.wsnFile .bad) = .ok (wsnBadZipInfo p)) ∧
    (∀ (det : List Nat → Option String) (px : String → Dict)
       (es : List ZipEntry) (p : String),
       (wsnXmlNames det es).find? (fun f => pyLower f == "summary.xml") = none →
       extract_info_wsn_entries det px es p =
         .ok (dset (dset ([] : Dict) "Version" (.vstr "Py"))
           "file_path" (.vstr p))) ∧
    (∀ (det : List Nat → Option String) (px : String → Dict)
       (p : String) (t : Int) (rest : List FsEntry) (ds : List Dict),
       scanPass1 det px rest = .ok ds →
       find_files_with_content det px (⟨p, t, .zipFile .bad⟩ :: rest) =
         .error .badZipFile) ∧
    (∀ (det : List Nat → Option String) (px : String → Dict)
       (p : String) (t : Int) (c : List Nat) (rest : List FsEntry)
       (ds : List Dict),
       scanPass1 det px rest = .ok ds →
       find_files_with_content det px
         (⟨p, t, .zipFile (.withEntries [⟨"summary.wsm", c, true⟩])⟩ :: rest) =
         .error .runtimeError) := by
  refine ⟨?_, ?_, ?_, ?_⟩
  · intro det px p hwsn hbang
    unfold extract_info_nonzip
    rw [hwsn, hbang]
    rfl
  · intro det px es p hnone
    unfold extract_info_wsn_entries
    rw [hnone]
  · intro det px p t rest ds hsp
    have h1 : scanPass1 det px (⟨p, t, FsFile.zipFile Archive.bad⟩ :: rest) =
        .ok ds := by
      show (do
        let hd ← scanOne det px ⟨p, t, FsFile.zipFile Archive.bad⟩
        let tl ← scanPass1 det px rest
        pure (match hd with | some d => d :: tl | none => tl) :
          Except PyErr (List Dict)) = .ok ds
      rw [hsp]
      rfl
    have h2 : scanZips det px (⟨p, t, FsFile.zipFile Archive.bad⟩ :: rest) =
        .error .badZipFile := rfl
    unfold find_files_with_content
    rw [h1, h2]
    rfl
  · intro det px p t c rest ds hsp
    have h1 : scanPass1 det px
        (⟨p, t, FsFile.zipFile (.withEntries [⟨"summary.wsm", c, true⟩])⟩ :: rest) =
        .ok ds := by
      show (do
        let hd ← scanOne det px
          ⟨p, t, FsFile.zipFile (.withEntries [⟨"summary.wsm", c, true⟩])⟩
        let tl ← scanPass1 det px rest
        pure (match hd with | some d => d :: tl | none => tl) :
          Except PyErr (List Dict)) = .ok ds
      rw [hsp]
      rfl
    have h2 : scanZips det px
        (⟨p, t, FsFile.zipFile (.withEntries [⟨"summary.wsm", c, true⟩])⟩ :: rest) =
        .error .runtimeError := rfl
    unfold find_files_with_content
    rw [h1, h2]
    rfl

/-- C3 counterexample: a single bad `.zip` makes `find_files_with_content`
raise `BadZipFile` — the scan aborts instead of skipping the archive. -/
theorem C3_counterexample :
    find_files_with_content (fun _ => none) (fun _ => [])
      [⟨"a.zip", 5, .zipFile .bad⟩] = .error .badZipFile := rfl

/-- C3 witness: an archive whose only entry is a password-protected
`summary.wsm` aborts the scan with `RuntimeError`. -/
theorem C3_error_containment_amended_witness :
    find_files_with_content (fun _ => none) (fun _ => [])
      [⟨"a.zip", 7, .zipFile (.withEntries [⟨"summary.wsm", [1, 2], true⟩])⟩] =
      .error .runtimeError :=
  C3_error_containment_amended.2.2.2 (fun _ => none) (fun _ => [])
    "a.zip" 7 [1, 2] [] [] rfl
